import Mathlib

/-!
Verification development for the webmail-summary pipeline.

The definitions in this file are a shallow embedding of the Python sources:

* `index/mail_repo.py` — the SQLite `messages` / `attachments` /
  `external_assets` tables and their repository operations,
* `jobs/tasks_sync.py` — the per-message state machine of the sync task,
* `imap_client.py` — `search_uids`,
* `util/net.py` — `_is_private_ip`, `_validate_public_host`, `stream_download`,
* `archive/html_rewrite.py` — `_guess_ext`, `download` and the asset loop of
  `rewrite_html_and_download_assets`,
* `llm/long_summarize.py` — bullet extraction, section normalisation, the
  chunking helpers and `summarize_email_long_aware`,
* `util/jsonish.py` — `extract_first_json_object`,
  `extract_json_string_value`, `coerce_summary_text`.

Modelling conventions: SQLite tables are lists of row structures; Python
`str` is Lean `String`; `None` is `Option.none`; timestamps are opaque
strings supplied as parameters (the Python code takes them from the wall
clock); machine-level effects (DNS resolution, HTTP transfers, the system
clock, the SHA-256 routine of `hashlib`, the LLM provider) are passed in as
explicit environments so that the surrounding repository logic stays exactly
the logic of the source.
-/

namespace WebmailSummary

/-! ## Python string primitives

Helper functions mirroring the Python `str` operations used by the sources.
Python strings are sequences of code points, which matches Lean `String` /
`List Char` (`len`, slicing and iteration are all code-point based).
-/

/-- Whitespace test matching Python's `str.strip()` / `\s` on the ASCII range
plus the common Unicode space characters recognised by Python. -/
def pyIsSpace (c : Char) : Bool :=
  c = ' ' || c = '\t' || c = '\n' || c = '\r' || c = '\x0b' || c = '\x0c' ||
  c = '\x85' || c = '\xa0' || c = ' ' || c = ' ' || c = '　' ||
  (' ' ≤ c && c ≤ ' ') || c = ' ' || c = ' ' || c = ' '

/-- Left strip on `List Char` (Python `str.lstrip()`). -/
def lstripL (l : List Char) : List Char := l.dropWhile pyIsSpace

/-- Right strip on `List Char` (Python `str.rstrip()`). -/
def rstripL (l : List Char) : List Char := (l.reverse.dropWhile pyIsSpace).reverse

/-- Both-sides strip on `List Char` (Python `str.strip()`). -/
def stripL (l : List Char) : List Char := rstripL (lstripL l)

/-- Python `str.strip()`. -/
def pyStrip (s : String) : String := ⟨stripL s.data⟩

/-- Drop characters of `cs` from both ends (Python `str.strip(chars)`). -/
def pyStripChars (s : String) (cs : List Char) : String :=
  ⟨((s.data.dropWhile (cs.contains ·)).reverse.dropWhile (cs.contains ·)).reverse⟩

/-- Python `str.lower()` restricted to ASCII (the strings manipulated by the
sources are ASCII plus Korean, and Hangul has no case). -/
def pyLower (s : String) : String := ⟨s.data.map Char.toLower⟩

/-- Python `str.replace(old, new)` for a single-character `old`. -/
def pyReplaceChar (s : String) (old : Char) (new : List Char) : String :=
  ⟨s.data.flatMap (fun c => if c = old then new else [c])⟩

/-- Remove every occurrence of a two-character pattern, scanning left to
right (Python `str.replace(pat, "")` for `len(pat) == 2`). -/
def removePair (a b : Char) : List Char → List Char
  | [] => []
  | [c] => [c]
  | c :: d :: rest =>
    if c = a && d = b then removePair a b rest
    else c :: removePair a b (d :: rest)

/-- Python `str.replace("**", "")`. -/
def pyRemoveDoubleStar (s : String) : String := ⟨removePair '*' '*' s.data⟩

/-- Python `str.splitlines()` restricted to the line boundaries that occur in
this code base: `\r\n`, `\r`, `\n`, `\x0b`, `\x0c`.  A trailing boundary does
not produce a final empty line, matching Python. -/
def splitlinesL : List Char → List Char → List (List Char)
  | [], cur => if cur.isEmpty then [] else [cur.reverse]
  | '\r' :: '\n' :: rest, cur => cur.reverse :: splitlinesL rest []
  | c :: rest, cur =>
    if c = '\n' || c = '\r' || c = '\x0b' || c = '\x0c' then
      cur.reverse :: splitlinesL rest []
    else splitlinesL rest (c :: cur)

/-- Python `str.splitlines()`. -/
def pySplitlines (s : String) : List String :=
  (splitlinesL s.data []).map (fun l => ⟨l⟩)

/-- Python `str.split(sep)` for a one-character separator. -/
def pySplitChar (s : String) (sep : Char) : List String :=
  (splitCharL s.data).map (fun l => ⟨l⟩)
where
  splitCharL : List Char → List (List Char)
    | [] => [[]]
    | c :: rest =>
      let r := splitCharL rest
      if c = sep then [] :: r
      else match r with
        | [] => [[c]]
        | h :: t => (c :: h) :: t

/-- Python `str.startswith`. -/
def pyStartsWith (s pre : String) : Bool := pre.data.isPrefixOf s.data

/-- Python `in` test on strings (substring containment). -/
def pyContains (s sub : String) : Bool :=
  (List.range (s.data.length + 1)).any (fun i => sub.data.isPrefixOf (s.data.drop i))

/-- Python slicing `s[:n]` (by code points). -/
def pyTake (s : String) (n : Nat) : String := ⟨s.data.take n⟩

/-- Python slicing `s[n:]` (by code points). -/
def pyDrop (s : String) (n : Nat) : String := ⟨s.data.drop n⟩

/-- Length in code points, Python `len`. -/
def pyLen (s : String) : Nat := s.data.length

/-- Maximum of a list of naturals, `None` on the empty list (SQL `MAX`). -/
def listMax? : List Nat → Option Nat
  | [] => none
  | u :: us =>
    match listMax? us with
    | none => some u
    | some m => some (max u m)

/-! ## Index repository (`index/mail_repo.py`)

The `messages`, `attachments` and `external_assets` tables are lists of rows;
`nextId` models the SQLite rowid allocator.  JSON-valued text columns
(`tags_json`, `topics_json`) are modelled by their parsed content.
-/

/-- Non-key columns written by `upsert_message`. -/
structure UpsertFields where
  message_id : Option String
  internal_date : Option String
  from_addr : Option String
  to_addr : Option String
  subject : Option String
  raw_eml_path : String
  body_html_path : Option String
  body_text_path : Option String
  rendered_html_path : Option String
  deriving DecidableEq

/-- Row of the `messages` table. -/
structure MsgRow where
  id : Nat
  account_id : String
  mailbox : String
  uidvalidity : Nat
  uid : Nat
  message_id : Option String := none
  internal_date : Option String := none
  from_addr : Option String := none
  to_addr : Option String := none
  subject : Option String := none
  raw_eml_path : String := ""
  body_html_path : Option String := none
  body_text_path : Option String := none
  rendered_html_path : Option String := none
  summary : Option String := none
  tags_json : Option (List String) := none
  topics_json : Option (List String) := none
  personal : Bool := false
  created_at : String := ""
  updated_at : String := ""
  archived_at : Option String := none
  indexed_at : Option String := none
  exported_at : Option String := none
  seen_marked_at : Option String := none
  summarized_at : Option String := none
  summarize_ms : Option Nat := none
  deriving DecidableEq

/-- Row of the `attachments` table. -/
structure AttRow where
  message_fk : Nat
  filename : String
  mime_type : Option String
  size_bytes : Nat
  rel_path : String
  content_id : Option String
  is_inline : Bool
  created_at : String
  deriving DecidableEq

/-- Attachment dictionary passed to `replace_attachments`. -/
structure AttItem where
  filename : String
  mime_type : Option String
  size_bytes : Nat
  rel_path : String
  content_id : Option String
  is_inline : Bool
  deriving DecidableEq

/-- Row of the `external_assets` table. -/
structure ExtRow where
  message_fk : Nat
  original_url : String
  rel_path : Option String
  mime_type : Option String
  size_bytes : Option Nat
  status : String
  created_at : String
  deriving DecidableEq

/-- External-asset dictionary passed to `replace_external_assets`. -/
structure ExtItem where
  original_url : String
  rel_path : Option String
  mime_type : Option String
  size_bytes : Option Nat
  status : String
  deriving DecidableEq

/-- The SQLite database state used by the mail repository. -/
structure MailDb where
  messages : List MsgRow := []
  attachments : List AttRow := []
  external_assets : List ExtRow := []
  nextId : Nat := 1
  deriving DecidableEq

/-- The empty database. -/
def MailDb.empty : MailDb := {}

/-- Match on the unique key `(account_id, mailbox, uidvalidity, uid)`. -/
def keyMatches (r : MsgRow) (a m : String) (uv u : Nat) : Bool :=
  r.account_id == a && r.mailbox == m && r.uidvalidity == uv && r.uid == u

/-- The `DO UPDATE` arm of `upsert_message`: every non-key column is
overwritten from `excluded`, `updated_at` is refreshed, and
`archived_at = COALESCE(messages.archived_at, excluded.archived_at)`
(the insert always supplies `archived_at = ts`). -/
def applyUpsertUpdate (r : MsgRow) (f : UpsertFields) (ts : String) : MsgRow :=
  { r with
    message_id := f.message_id
    internal_date := f.internal_date
    from_addr := f.from_addr
    to_addr := f.to_addr
    subject := f.subject
    raw_eml_path := f.raw_eml_path
    body_html_path := f.body_html_path
    body_text_path := f.body_text_path
    rendered_html_path := f.rendered_html_path
    updated_at := ts
    archived_at := some (r.archived_at.getD ts) }

/-- The `INSERT` arm of `upsert_message`: a fresh row with
`created_at = updated_at = archived_at = ts`. -/
def newUpsertRow (id : Nat) (a m : String) (uv u : Nat) (f : UpsertFields)
    (ts : String) : MsgRow :=
  { id := id, account_id := a, mailbox := m, uidvalidity := uv, uid := u
    message_id := f.message_id
    internal_date := f.internal_date
    from_addr := f.from_addr
    to_addr := f.to_addr
    subject := f.subject
    raw_eml_path := f.raw_eml_path
    body_html_path := f.body_html_path
    body_text_path := f.body_text_path
    rendered_html_path := f.rendered_html_path
    created_at := ts
    updated_at := ts
    archived_at := some ts }

/-- Embedding of `mail_repo.upsert_message`: `INSERT ... ON CONFLICT(key) DO
UPDATE`, followed by `SELECT id` on the same key.  Returns the selected id and
the new database state. -/
def upsert_message (db : MailDb) (a m : String) (uv u : Nat) (f : UpsertFields)
    (ts : String) : Nat × MailDb :=
  let db' :=
    if db.messages.any (fun r => keyMatches r a m uv u) then
      { db with messages :=
          db.messages.map (fun r =>
            if keyMatches r a m uv u then applyUpsertUpdate r f ts else r) }
    else
      { db with
        messages := db.messages ++ [newUpsertRow db.nextId a m uv u f ts]
        nextId := db.nextId + 1 }
  let fk := ((db'.messages.find? (fun r => keyMatches r a m uv u)).map (·.id)).getD 0
  (fk, db')

/-- Embedding of `mail_repo.replace_attachments`: delete every row of
`message_fk`, then insert the supplied items in order. -/
def replace_attachments (db : MailDb) (fk : Nat) (items : List AttItem)
    (ts : String) : MailDb :=
  { db with attachments :=
      db.attachments.filter (fun r => !(r.message_fk == fk)) ++
      items.map (fun it =>
        { message_fk := fk, filename := it.filename, mime_type := it.mime_type
          size_bytes := it.size_bytes, rel_path := it.rel_path
          content_id := it.content_id, is_inline := it.is_inline
          created_at := ts }) }

/-- Embedding of `mail_repo.replace_external_assets`. -/
def replace_external_assets (db : MailDb) (fk : Nat) (items : List ExtItem)
    (ts : String) : MailDb :=
  { db with external_assets :=
      db.external_assets.filter (fun r => !(r.message_fk == fk)) ++
      items.map (fun it =>
        { message_fk := fk, original_url := it.original_url
          rel_path := it.rel_path, mime_type := it.mime_type
          size_bytes := it.size_bytes, status := it.status
          created_at := ts }) }

/-- Embedding of `mail_repo.set_analysis` (summary, tags, topics, personal,
`indexed_at`, `summarized_at`, `summarize_ms`, `updated_at`). -/
def set_analysis (db : MailDb) (fk : Nat) (summary : String)
    (tags topics : List String) (personal : Bool) (sms : Option Nat)
    (ts : String) : MailDb :=
  { db with messages :=
      db.messages.map (fun r =>
        if r.id == fk then
          { r with
            summary := some summary
            tags_json := some tags
            topics_json := some topics
            personal := personal
            indexed_at := some ts
            summarized_at := some ts
            summarize_ms := sms
            updated_at := ts }
        else r) }

/-- Embedding of `mail_repo.set_exported`. -/
def set_exported (db : MailDb) (fk : Nat) (ts : String) : MailDb :=
  { db with messages :=
      db.messages.map (fun r =>
        if r.id == fk then { r with exported_at := some ts, updated_at := ts }
        else r) }

/-- Embedding of `mail_repo.set_seen_marked`. -/
def set_seen_marked (db : MailDb) (fk : Nat) (ts : String) : MailDb :=
  { db with messages :=
      db.messages.map (fun r =>
        if r.id == fk then { r with seen_marked_at := some ts, updated_at := ts }
        else r) }

/-- Embedding of `mail_repo.get_max_uid`: `SELECT MAX(uid)` over the rows of
the account/mailbox/uidvalidity whose `seen_marked_at IS NOT NULL`. -/
def get_max_uid (db : MailDb) (a m : String) (uv : Nat) : Option Nat :=
  listMax?
    ((db.messages.filter (fun r =>
        r.account_id == a && r.mailbox == m && r.uidvalidity == uv &&
        r.seen_marked_at.isSome)).map (·.uid))

/-! ## IMAP client (`imap_client.py`)

`search_uids` builds the search criteria, asks the server (modelled as the
list of UIDs the server returns for those criteria), sorts ascending and
applies the `min_uid_exclusive` watermark client-side.
-/

/-- Criteria list built by `ImapSession.search_uids` (`since` is already
formatted as an RFC3501 date string by the caller side of the model). -/
def search_criteria (sender : String) (since : Option String)
    (unseen_only : Bool) : List String :=
  (if unseen_only then ["UNSEEN"] else []) ++ ["FROM", sender] ++
  (match since with | some d => ["SINCE", d] | none => [])

/-- Embedding of `ImapSession.search_uids` after the server reply:
`uids.sort()` then the client-side `min_uid_exclusive` filter. -/
def search_uids (serverUids : List Nat) (min_uid_exclusive : Option Nat) :
    List Nat :=
  let uids := List.insertionSort (· ≤ ·) serverUids
  match min_uid_exclusive with
  | none => uids
  | some m => uids.filter (fun u => m < u)

/-! ## Sync task (`jobs/tasks_sync.py`)

The per-message loop of `sync_mailbox_task.run`.  For one message the loop
runs: archive (files only) → index (one transaction: `upsert_message`,
`replace_attachments`, `replace_external_assets`, commit) → summarize →
`set_analysis` (own transaction) → export note → `set_exported` (own
transaction) → mark-seen → `set_seen_marked`.  Only the mark-seen stage is
wrapped in `try/except`; an exception at any other stage propagates out of
the `for` loop (whose enclosing `try` has only a `finally`), aborting the
whole task.  A transaction that fails before its commit is rolled back, so
the database-visible failure points are exactly the transaction boundaries
enumerated by `StageOutcome`.  Timestamps within one message are collapsed
to a single opaque `ts` (the code takes several `_now()` readings; their
concrete values never matter to the claims).
-/

/-- Where (if anywhere) processing of one message raises. -/
inductive StageOutcome where
  | failArchive
  | failIndexTxn
  | failSummarize
  | failExport
  | failMarkSeen
  | ok
  deriving DecidableEq

/-- Per-message inputs of the loop body: the UID, the values fed to the
repository calls (derived from headers, archive result and the LLM reply),
and the failure point of this iteration. -/
structure MsgStep where
  uid : Nat
  fields : UpsertFields
  atts : List AttItem
  exts : List ExtItem
  summary : String
  tags : List String
  topics : List String
  personal : Bool
  sms : Option Nat
  outcome : StageOutcome
  deriving DecidableEq

/-- One iteration of the per-message loop, returning the database after the
iteration and whether the iteration raised an exception that propagates
(everything except a mark-seen failure, which is caught). -/
def runMessage (a m : String) (uv : Nat) (db : MailDb) (st : MsgStep)
    (ts : String) : MailDb × Bool :=
  match st.outcome with
  | .failArchive => (db, true)
  | .failIndexTxn => (db, true)
  | o =>
    let p := upsert_message db a m uv st.uid st.fields ts
    let d3 := replace_external_assets
      (replace_attachments p.2 p.1 st.atts ts) p.1 st.exts ts
    match o with
    | .failSummarize => (d3, true)
    | o2 =>
      let d4 := set_analysis d3 p.1 st.summary st.tags st.topics st.personal
        st.sms ts
      match o2 with
      | .failExport => (d4, true)
      | o3 =>
        let d5 := set_exported d4 p.1 ts
        match o3 with
        | .failMarkSeen => (d5, false)
        | _ => (set_seen_marked d5 p.1 ts, false)

/-- Result of a sync run: final database, whether the task aborted with an
exception, and how many loop iterations completed. -/
structure SyncResult where
  db : MailDb
  aborted : Bool
  processed : Nat
  deriving DecidableEq

/-- The per-message loop of the sync task over the fetched messages. -/
def runSync (a m : String) (uv : Nat) (db : MailDb) :
    List (MsgStep × String) → SyncResult
  | [] => ⟨db, false, 0⟩
  | (st, ts) :: rest =>
    let r1 := runMessage a m uv db st ts
    if r1.2 then ⟨r1.1, true, 0⟩
    else
      let r := runSync a m uv r1.1 rest
      ⟨r.db, r.aborted, r.processed + 1⟩

/-- The sync task entry: if the LLM provider is not ready
(`get_llm_provider` raises `LlmNotReady`), the task fails before touching
any message; otherwise the per-message loop runs. -/
def sync_task_run (llmReady : Bool) (a m : String) (uv : Nat) (db : MailDb)
    (steps : List (MsgStep × String)) : SyncResult :=
  if llmReady then runSync a m uv db steps else ⟨db, true, 0⟩

/-! ### Database invariants for the sync state machine -/

/-- Stage-timestamp ordering on one row: `seen_marked_at` set implies
`exported_at` set implies `archived_at` set. -/
def RowInv (r : MsgRow) : Prop :=
  (r.seen_marked_at.isSome → r.exported_at.isSome) ∧
  (r.exported_at.isSome → r.archived_at.isSome)

instance (r : MsgRow) : Decidable (RowInv r) := by unfold RowInv; infer_instance

/-- Stage-timestamp ordering on every row of the database. -/
def DbInv (db : MailDb) : Prop := ∀ r ∈ db.messages, RowInv r

instance (db : MailDb) : Decidable (DbInv db) := by
  unfold DbInv; exact List.decidableBAll _ _

/-- Structural well-formedness of the SQLite state: row ids are below the
allocator and pairwise distinct (the rowid is a primary key). -/
def DbWf (db : MailDb) : Prop :=
  (∀ r ∈ db.messages, r.id < db.nextId) ∧ (db.messages.map (·.id)).Nodup

instance (db : MailDb) : Decidable (DbWf db) := by
  unfold DbWf; exact instDecidableAnd

/-! ### Lemmas about the repository operations -/

theorem keyMatches_applyUpsertUpdate (r : MsgRow) (f : UpsertFields)
    (ts : String) (a m : String) (uv u : Nat) :
    keyMatches (applyUpsertUpdate r f ts) a m uv u = keyMatches r a m uv u := rfl

theorem id_applyUpsertUpdate (r : MsgRow) (f : UpsertFields) (ts : String) :
    (applyUpsertUpdate r f ts).id = r.id := rfl

theorem keyMatches_newUpsertRow (id : Nat) (a m : String) (uv u : Nat)
    (f : UpsertFields) (ts : String) :
    keyMatches (newUpsertRow id a m uv u f ts) a m uv u = true := by
  simp [keyMatches, newUpsertRow]

/-- Membership in the messages table after an upsert. -/
theorem mem_upsert_messages {db : MailDb} {a m : String} {uv u : Nat}
    {f : UpsertFields} {ts : String} {r : MsgRow}
    (h : r ∈ (upsert_message db a m uv u f ts).2.messages) :
    (∃ r0 ∈ db.messages, r = if keyMatches r0 a m uv u then
        applyUpsertUpdate r0 f ts else r0) ∨
    (r = newUpsertRow db.nextId a m uv u f ts ∧
      ¬ db.messages.any (fun r0 => keyMatches r0 a m uv u)) := by
  by_cases hany : db.messages.any (fun r0 => keyMatches r0 a m uv u)
  · left
    simp only [upsert_message, hany, if_true] at h
    obtain ⟨r0, hr0, hr⟩ := List.mem_map.mp h
    exact ⟨r0, hr0, hr.symm⟩
  · simp only [upsert_message, hany, if_false] at h
    rcases List.mem_append.mp h with h1 | h1
    · refine Or.inl ⟨r, h1, ?_⟩
      have : keyMatches r a m uv u = false := by
        by_contra hk
        exact hany (List.any_eq_true.mpr ⟨r, h1, by simpa using hk⟩)
      simp [this]
    · exact Or.inr ⟨List.mem_singleton.mp h1, hany⟩

/-- After `upsert_message`, every row matching the key has `archived_at`
set (either kept by `COALESCE` or freshly written). -/
theorem upsert_archived_isSome {db : MailDb} {a m : String} {uv u : Nat}
    {f : UpsertFields} {ts : String} :
    ∀ r ∈ (upsert_message db a m uv u f ts).2.messages,
      keyMatches r a m uv u → r.archived_at.isSome := by
  intro r hr hk
  rcases mem_upsert_messages hr with ⟨r0, _, hcase⟩ | ⟨hnew, _⟩
  · by_cases h0 : keyMatches r0 a m uv u
    · subst hcase; simp [h0, applyUpsertUpdate]
    · simp only [h0, if_false] at hcase
      subst hcase
      exact absurd hk (by simp [h0])
  · subst hnew; simp [newUpsertRow]

/-- After `upsert_message`, some row matches the key. -/
theorem upsert_any_keyMatches (db : MailDb) (a m : String) (uv u : Nat)
    (f : UpsertFields) (ts : String) :
    (upsert_message db a m uv u f ts).2.messages.any
      (fun r => keyMatches r a m uv u) = true := by
  by_cases hany : db.messages.any (fun r0 => keyMatches r0 a m uv u)
  · obtain ⟨r0, hr0, hk0⟩ := List.any_eq_true.mp hany
    simp only [upsert_message, hany, if_true]
    refine List.any_eq_true.mpr ⟨applyUpsertUpdate r0 f ts, ?_, ?_⟩
    · exact List.mem_map.mpr ⟨r0, hr0, by simp [hk0]⟩
    · simpa [keyMatches_applyUpsertUpdate] using hk0
  · simp only [upsert_message, hany, if_false]
    exact List.any_eq_true.mpr ⟨newUpsertRow db.nextId a m uv u f ts,
      by simp, by simp [keyMatches_newUpsertRow]⟩

/-- Row ids present after an upsert: unchanged in the update arm, extended
by the fresh id in the insert arm. -/
theorem upsert_ids (db : MailDb) (a m : String) (uv u : Nat)
    (f : UpsertFields) (ts : String) :
    (upsert_message db a m uv u f ts).2.messages.map (·.id) =
      (if db.messages.any (fun r0 => keyMatches r0 a m uv u) then
        db.messages.map (·.id)
      else db.messages.map (·.id) ++ [db.nextId]) := by
  by_cases hany : db.messages.any (fun r0 => keyMatches r0 a m uv u)
  · simp only [upsert_message, hany, if_true, List.map_map]
    congr 1
    funext r
    by_cases hk : keyMatches r a m uv u <;> simp [hk, id_applyUpsertUpdate]
  · simp [upsert_message, hany, newUpsertRow]

/-- The allocator after an upsert. -/
theorem upsert_nextId (db : MailDb) (a m : String) (uv u : Nat)
    (f : UpsertFields) (ts : String) :
    (upsert_message db a m uv u f ts).2.nextId =
      (if db.messages.any (fun r0 => keyMatches r0 a m uv u) then db.nextId
       else db.nextId + 1) := by
  by_cases hany : db.messages.any (fun r0 => keyMatches r0 a m uv u) <;>
    simp [upsert_message, hany]

/-- `upsert_message` preserves well-formedness. -/
theorem upsert_wf {db : MailDb} (a m : String) (uv u : Nat)
    (f : UpsertFields) (ts : String) (hwf : DbWf db) :
    DbWf (upsert_message db a m uv u f ts).2 := by
  obtain ⟨hlt, hnd⟩ := hwf
  constructor
  · intro r hr
    rw [upsert_nextId]
    rcases mem_upsert_messages hr with ⟨r0, hr0, hcase⟩ | ⟨hnew, hnone⟩
    · have : r.id = r0.id := by
        by_cases hk : keyMatches r0 a m uv u <;> simp [hk] at hcase <;>
          simp [hcase, id_applyUpsertUpdate]
      rw [this]
      by_cases hany : db.messages.any (fun r0 => keyMatches r0 a m uv u) <;>
        simp only [hany, if_true, if_false]
      · exact hlt r0 hr0
      · exact Nat.lt_succ_of_lt (hlt r0 hr0)
    · have hany : db.messages.any (fun r0 => keyMatches r0 a m uv u) = false := by
        simpa using hnone
      simp [hany, hnew, newUpsertRow]
  · rw [upsert_ids]
    by_cases hany : db.messages.any (fun r0 => keyMatches r0 a m uv u)
    · simpa [hany] using hnd
    · have : (if db.messages.any (fun r0 => keyMatches r0 a m uv u) then
          db.messages.map (·.id)
        else db.messages.map (·.id) ++ [db.nextId]) =
          db.messages.map (·.id) ++ [db.nextId] := by simp [hany]
      rw [this, List.nodup_append]
      refine ⟨hnd, List.nodup_singleton _, ?_⟩
      intro x hx
      simp only [List.mem_singleton]
      intro hxeq
      subst hxeq
      obtain ⟨r0, hr0, hid⟩ := List.mem_map.mp hx
      exact absurd (hid ▸ hlt r0 hr0) (lt_irrefl _)

/-- `upsert_message` preserves the stage-order invariant. -/
theorem upsert_inv {db : MailDb} (a m : String) (uv u : Nat)
    (f : UpsertFields) (ts : String) (hinv : DbInv db) :
    DbInv (upsert_message db a m uv u f ts).2 := by
  intro r hr
  rcases mem_upsert_messages hr with ⟨r0, hr0, hcase⟩ | ⟨hnew, _⟩
  · by_cases hk : keyMatches r0 a m uv u
    · rw [if_pos hk] at hcase
      obtain ⟨h1, _⟩ := hinv r0 hr0
      rw [hcase]
      exact ⟨h1, fun _ => by simp [applyUpsertUpdate]⟩
    · rw [if_neg hk] at hcase
      exact hcase ▸ hinv r0 hr0
  · rw [hnew]
    exact ⟨by simp [newUpsertRow], fun _ => by simp [newUpsertRow]⟩

/-- In a well-formed table, the id returned by `upsert_message` identifies
only rows whose `archived_at` is set. -/
theorem upsert_fk_archived {db : MailDb} {a m : String} {uv u : Nat}
    {f : UpsertFields} {ts : String} (hwf : DbWf db) :
    ∀ r ∈ (upsert_message db a m uv u f ts).2.messages,
      r.id = (upsert_message db a m uv u f ts).1 → r.archived_at.isSome := by
  intro r hr hid
  set db' := (upsert_message db a m uv u f ts).2 with hdb'
  have hany := upsert_any_keyMatches db a m uv u f ts
  obtain ⟨rstar, hrstar, hkstar⟩ := List.any_eq_true.mp hany
  have hfind : (db'.messages.find? (fun r => keyMatches r a m uv u)).isSome := by
    rw [List.find?_isSome]
    exact ⟨rstar, hrstar, hkstar⟩
  obtain ⟨rf, hrf⟩ := Option.isSome_iff_exists.mp hfind
  have hrfmem : rf ∈ db'.messages := List.mem_of_find?_eq_some hrf
  have hrfkey : keyMatches rf a m uv u := by
    simpa using List.find?_some hrf
  have hfk : (upsert_message db a m uv u f ts).1 = rf.id := by
    show ((db'.messages.find? (fun r => keyMatches r a m uv u)).map (·.id)).getD 0
        = rf.id
    rw [hrf]; rfl
  have hwf' := upsert_wf a m uv u f ts hwf
  have hinj := List.inj_on_of_nodup_map hwf'.2
  have : r = rf := hinj hr hrfmem (hid.trans hfk)
  rw [this]
  exact upsert_archived_isSome rf hrfmem hrfkey

/-- `replace_attachments` and `replace_external_assets` do not touch the
messages table. -/
theorem replace_attachments_messages (db : MailDb) (fk : Nat)
    (items : List AttItem) (ts : String) :
    (replace_attachments db fk items ts).messages = db.messages ∧
    (replace_attachments db fk items ts).nextId = db.nextId := ⟨rfl, rfl⟩

theorem replace_external_assets_messages (db : MailDb) (fk : Nat)
    (items : List ExtItem) (ts : String) :
    (replace_external_assets db fk items ts).messages = db.messages ∧
    (replace_external_assets db fk items ts).nextId = db.nextId := ⟨rfl, rfl⟩

/-- Membership after a by-id update of the messages table. -/
theorem mem_map_updateById {l : List MsgRow} {fk : Nat} {g : MsgRow → MsgRow}
    {r : MsgRow}
    (h : r ∈ l.map (fun r0 => if r0.id == fk then g r0 else r0)) :
    ∃ r0 ∈ l, r = if r0.id == fk then g r0 else r0 := by
  obtain ⟨r0, hr0, hr⟩ := List.mem_map.mp h
  exact ⟨r0, hr0, hr.symm⟩

/-- `set_analysis` preserves the stage-order invariant (it does not touch
`archived_at`, `exported_at` or `seen_marked_at`). -/
theorem set_analysis_inv {db : MailDb} {fk : Nat} {summary : String}
    {tags topics : List String} {personal : Bool} {sms : Option Nat}
    {ts : String} (hinv : DbInv db) :
    DbInv (set_analysis db fk summary tags topics personal sms ts) := by
  intro r hr
  obtain ⟨r0, hr0, hcase⟩ := mem_map_updateById hr
  by_cases hid : r0.id == fk
  · rw [if_pos hid] at hcase
    obtain ⟨h1, h2⟩ := hinv r0 hr0
    rw [hcase]
    exact ⟨h1, h2⟩
  · rw [if_neg hid] at hcase
    exact hcase ▸ hinv r0 hr0

/-- `set_exported` preserves the invariant provided every row carrying the
updated id is already archived. -/
theorem set_exported_inv {db : MailDb} {fk : Nat} {ts : String}
    (harch : ∀ r ∈ db.messages, r.id = fk → r.archived_at.isSome)
    (hinv : DbInv db) : DbInv (set_exported db fk ts) := by
  intro r hr
  obtain ⟨r0, hr0, hcase⟩ := mem_map_updateById hr
  by_cases hid : r0.id == fk
  · rw [if_pos hid] at hcase
    obtain ⟨h1, _⟩ := hinv r0 hr0
    have ha : r0.archived_at.isSome := harch r0 hr0 (by simpa using hid)
    rw [hcase]
    exact ⟨fun _ => rfl, fun _ => ha⟩
  · rw [if_neg hid] at hcase
    exact hcase ▸ hinv r0 hr0

/-- `set_seen_marked` preserves the invariant provided every row carrying the
updated id is already exported. -/
theorem set_seen_marked_inv {db : MailDb} {fk : Nat} {ts : String}
    (hexp : ∀ r ∈ db.messages, r.id = fk → r.exported_at.isSome)
    (hinv : DbInv db) : DbInv (set_seen_marked db fk ts) := by
  intro r hr
  obtain ⟨r0, hr0, hcase⟩ := mem_map_updateById hr
  by_cases hid : r0.id == fk
  · rw [if_pos hid] at hcase
    obtain ⟨_, h2⟩ := hinv r0 hr0
    have he : r0.exported_at.isSome := hexp r0 hr0 (by simpa using hid)
    rw [hcase]
    exact ⟨fun _ => he, fun _ => h2 he⟩
  · rw [if_neg hid] at hcase
    exact hcase ▸ hinv r0 hr0

/-- By-id updates do not change the list of row ids. -/
theorem ids_map_updateById (l : List MsgRow) (fk : Nat) (g : MsgRow → MsgRow)
    (hg : ∀ r, (g r).id = r.id) :
    (l.map (fun r0 => if r0.id == fk then g r0 else r0)).map (·.id) =
      l.map (·.id) := by
  rw [List.map_map]
  apply List.map_congr_left
  intro r0 _
  by_cases hid : r0.id = fk <;> simp [hid, hg]

/-- Well-formedness is stable under any by-id update of the messages table
whose update function preserves the id (as all the `set_*` helpers do). -/
theorem wf_updateById {l : List MsgRow} {nid fk : Nat} {g : MsgRow → MsgRow}
    (hg : ∀ r, (g r).id = r.id)
    (hlt : ∀ r ∈ l, r.id < nid) (hnd : (l.map (·.id)).Nodup) :
    (∀ r ∈ l.map (fun r0 => if r0.id == fk then g r0 else r0), r.id < nid) ∧
    ((l.map (fun r0 => if r0.id == fk then g r0 else r0)).map (·.id)).Nodup := by
  constructor
  · intro r hr
    obtain ⟨r0, hr0, hcase⟩ := mem_map_updateById hr
    have : r.id = r0.id := by
      by_cases hid : r0.id == fk
      · rw [if_pos hid] at hcase; rw [hcase]; exact hg r0
      · rw [if_neg hid] at hcase; rw [hcase]
    rw [this]
    exact hlt r0 hr0
  · rw [ids_map_updateById l fk g hg]
    exact hnd

theorem set_analysis_wf {db : MailDb} {fk : Nat} {summary : String}
    {tags topics : List String} {personal : Bool} {sms : Option Nat}
    {ts : String} (hwf : DbWf db) :
    DbWf (set_analysis db fk summary tags topics personal sms ts) :=
  wf_updateById (fun _ => rfl) hwf.1 hwf.2

theorem set_exported_wf {db : MailDb} {fk : Nat} {ts : String}
    (hwf : DbWf db) : DbWf (set_exported db fk ts) :=
  wf_updateById (fun _ => rfl) hwf.1 hwf.2

theorem set_seen_marked_wf {db : MailDb} {fk : Nat} {ts : String}
    (hwf : DbWf db) : DbWf (set_seen_marked db fk ts) :=
  wf_updateById (fun _ => rfl) hwf.1 hwf.2

/-- By-id updates preserve any per-row property that depends only on fields
the update function leaves untouched (stated for the two fields the sync
proofs track). -/
theorem updateById_pres_field {l : List MsgRow} {fk : Nat} {g : MsgRow → MsgRow}
    (φ : MsgRow → Option String) (hφ : ∀ r, φ (g r) = φ r)
    (h : ∀ r ∈ l, r.id = fk → (φ r).isSome) :
    ∀ r ∈ l.map (fun r0 => if r0.id == fk then g r0 else r0),
      r.id = fk → (φ r).isSome := by
  intro r hr hid
  obtain ⟨r0, hr0, hcase⟩ := mem_map_updateById hr
  by_cases h0 : r0.id == fk
  · rw [if_pos h0] at hcase
    rw [hcase, hφ]
    exact h r0 hr0 (by simpa using h0)
  · rw [if_neg h0] at hcase
    exact hcase ▸ h r0 hr0 (hcase ▸ hid)

/-- After `set_exported db fk ts`, every row with id `fk` is exported. -/
theorem set_exported_fk_exported (db : MailDb) (fk : Nat) (ts : String) :
    ∀ r ∈ (set_exported db fk ts).messages, r.id = fk →
      r.exported_at.isSome := by
  intro r hr hid
  obtain ⟨r0, hr0, hcase⟩ := mem_map_updateById hr
  by_cases h0 : r0.id == fk
  · rw [if_pos h0] at hcase; rw [hcase]; rfl
  · rw [if_neg h0] at hcase
    exact absurd (by simpa using hcase ▸ hid) h0

/-- One loop iteration preserves the invariant and well-formedness,
whatever the failure point. -/
theorem runMessage_inv_wf (a m : String) (uv : Nat) (db : MailDb)
    (st : MsgStep) (ts : String) (hwf : DbWf db) (hinv : DbInv db) :
    DbInv (runMessage a m uv db st ts).1 ∧ DbWf (runMessage a m uv db st ts).1 := by
  obtain ⟨uid, fields, atts, exts, summ, tags, topics, pers, sms, outc⟩ := st
  have hwf1 : DbWf (upsert_message db a m uv uid fields ts).2 :=
    upsert_wf a m uv uid fields ts hwf
  have hinv1 : DbInv (upsert_message db a m uv uid fields ts).2 :=
    upsert_inv a m uv uid fields ts hinv
  have hP1 : ∀ r ∈ (upsert_message db a m uv uid fields ts).2.messages,
      r.id = (upsert_message db a m uv uid fields ts).1 →
      r.archived_at.isSome := upsert_fk_archived hwf
  set fk := (upsert_message db a m uv uid fields ts).1 with hfk
  set d1 := (upsert_message db a m uv uid fields ts).2 with hd1
  -- the two replace calls keep the messages table and the allocator
  have hinv3 : DbInv (replace_external_assets
      (replace_attachments d1 fk atts ts) fk exts ts) := hinv1
  have hwf3 : DbWf (replace_external_assets
      (replace_attachments d1 fk atts ts) fk exts ts) := hwf1
  have hP13 : ∀ r ∈ (replace_external_assets
      (replace_attachments d1 fk atts ts) fk exts ts).messages,
      r.id = fk → r.archived_at.isSome := hP1
  set d3 := replace_external_assets (replace_attachments d1 fk atts ts) fk
    exts ts with hd3
  have hinv4 : DbInv (set_analysis d3 fk summ tags topics pers sms ts) :=
    set_analysis_inv hinv3
  have hwf4 : DbWf (set_analysis d3 fk summ tags topics pers sms ts) :=
    set_analysis_wf hwf3
  have hP14 : ∀ r ∈ (set_analysis d3 fk summ tags topics pers sms ts).messages,
      r.id = fk → r.archived_at.isSome :=
    updateById_pres_field (·.archived_at) (fun _ => rfl) hP13
  set d4 := set_analysis d3 fk summ tags topics pers sms ts with hd4
  have hinv5 : DbInv (set_exported d4 fk ts) := set_exported_inv hP14 hinv4
  have hwf5 : DbWf (set_exported d4 fk ts) := set_exported_wf hwf4
  have hP25 : ∀ r ∈ (set_exported d4 fk ts).messages, r.id = fk →
      r.exported_at.isSome := set_exported_fk_exported d4 fk ts
  set d5 := set_exported d4 fk ts with hd5
  have hinv6 : DbInv (set_seen_marked d5 fk ts) := set_seen_marked_inv hP25 hinv5
  have hwf6 : DbWf (set_seen_marked d5 fk ts) := set_seen_marked_wf hwf5
  cases outc <;> exact ⟨by assumption, by assumption⟩

/-- The whole per-message loop preserves the invariant and
well-formedness. -/
theorem runSync_inv_wf (a m : String) (uv : Nat) (db : MailDb)
    (steps : List (MsgStep × String)) (hwf : DbWf db) (hinv : DbInv db) :
    DbInv (runSync a m uv db steps).db ∧ DbWf (runSync a m uv db steps).db := by
  induction steps generalizing db with
  | nil => exact ⟨hinv, hwf⟩
  | cons p rest ih =>
    obtain ⟨hinv1, hwf1⟩ := runMessage_inv_wf a m uv db p.1 p.2 hwf hinv
    show DbInv (runSync a m uv db (p :: rest)).db ∧ _
    rw [runSync]
    by_cases hab : (runMessage a m uv db p.1 p.2).2
    · simp only [hab, if_true]
      exact ⟨hinv1, hwf1⟩
    · simp only [hab, if_false]
      exact ih (runMessage a m uv db p.1 p.2).1 hwf1 hinv1

/-! ### Characterisation of `listMax?` (SQL `MAX`) -/

theorem listMax?_eq_none_iff {l : List Nat} : listMax? l = none ↔ l = [] := by
  cases l with
  | nil => simp [listMax?]
  | cons u us =>
    simp only [listMax?]
    cases listMax? us <;> simp

theorem listMax?_mem {l : List Nat} {n : Nat} (h : listMax? l = some n) :
    n ∈ l := by
  induction l generalizing n with
  | nil => simp [listMax?] at h
  | cons u us ih =>
    simp only [listMax?] at h
    cases hus : listMax? us with
    | none => rw [hus] at h; simp at h; simp [h]
    | some m =>
      rw [hus] at h
      have hmax : max u m = n := Option.some.inj h
      by_cases hum : u ≤ m
      · have : m = n := by rw [← hmax, Nat.max_eq_right hum]
        exact List.mem_cons_of_mem u (this ▸ ih hus)
      · have : u = n := by
          rw [← hmax, Nat.max_eq_left (Nat.le_of_not_le hum)]
        simp [this]

theorem listMax?_is_ub {l : List Nat} {n : Nat} (h : listMax? l = some n) :
    ∀ x ∈ l, x ≤ n := by
  induction l generalizing n with
  | nil => simp
  | cons u us ih =>
    intro x hx
    simp only [listMax?] at h
    cases hus : listMax? us with
    | none =>
      rw [hus] at h
      have hun : u = n := Option.some.inj h
      have : us = [] := listMax?_eq_none_iff.mp hus
      subst this
      rcases List.mem_cons.mp hx with hxu | hxu
      · omega
      · simp at hxu
    | some m =>
      rw [hus] at h
      have hmax : max u m = n := Option.some.inj h
      rcases List.mem_cons.mp hx with hxu | hxu
      · subst hxu
        have := Nat.le_max_left x m
        omega
      · have h1 := ih hus x hxu
        have h2 := Nat.le_max_right u m
        omega

theorem listMax?_eq_some_iff {l : List Nat} {n : Nat} :
    listMax? l = some n ↔ n ∈ l ∧ ∀ x ∈ l, x ≤ n := by
  constructor
  · exact fun h => ⟨listMax?_mem h, listMax?_is_ub h⟩
  · rintro ⟨hmem, hub⟩
    cases hl : listMax? l with
    | none =>
      rw [listMax?_eq_none_iff.mp hl] at hmem
      simp at hmem
    | some m =>
      have h1 := listMax?_is_ub hl n hmem
      have h2 := hub m (listMax?_mem hl)
      exact congrArg some (Nat.le_antisymm h2 h1)

/-! ### Claim theorems: C6, C2, C1 -/

/-- C2: calling `upsert_message` again with the same unique key inserts no
new row, selects the same id, and leaves every row's `archived_at` unchanged
(in particular an already-set `archived_at` survives, by `COALESCE`); and
after `replace_attachments` / `replace_external_assets` the rows of
`message_fk` are exactly the supplied items while rows of other messages are
untouched. -/
theorem c2_upsert_idempotent_and_replace_wholesale :
    (∀ (db : MailDb) (a m : String) (uv u : Nat) (f1 f2 : UpsertFields)
        (ts1 ts2 : String),
      (upsert_message (upsert_message db a m uv u f1 ts1).2 a m uv u f2
          ts2).2.messages.length =
        (upsert_message db a m uv u f1 ts1).2.messages.length ∧
      (upsert_message (upsert_message db a m uv u f1 ts1).2 a m uv u f2
          ts2).1 = (upsert_message db a m uv u f1 ts1).1 ∧
      (upsert_message (upsert_message db a m uv u f1 ts1).2 a m uv u f2
          ts2).2.messages.map (·.archived_at) =
        (upsert_message db a m uv u f1 ts1).2.messages.map (·.archived_at)) ∧
    (∀ (db : MailDb) (fk : Nat) (items : List AttItem) (ts : String),
      (replace_attachments db fk items ts).attachments.filter
          (fun r => r.message_fk == fk) =
        items.map (fun it =>
          { message_fk := fk, filename := it.filename
            mime_type := it.mime_type, size_bytes := it.size_bytes
            rel_path := it.rel_path, content_id := it.content_id
            is_inline := it.is_inline, created_at := ts }) ∧
      (replace_attachments db fk items ts).attachments.filter
          (fun r => !(r.message_fk == fk)) =
        db.attachments.filter (fun r => !(r.message_fk == fk))) ∧
    (∀ (db : MailDb) (fk : Nat) (items : List ExtItem) (ts : String),
      (replace_external_assets db fk items ts).external_assets.filter
          (fun r => r.message_fk == fk) =
        items.map (fun it =>
          { message_fk := fk, original_url := it.original_url
            rel_path := it.rel_path, mime_type := it.mime_type
            size_bytes := it.size_bytes, status := it.status
            created_at := ts }) ∧
      (replace_external_assets db fk items ts).external_assets.filter
          (fun r => !(r.message_fk == fk)) =
        db.external_assets.filter (fun r => !(r.message_fk == fk))) := by
  refine ⟨?_, ?_, ?_⟩
  · intro db a m uv u f1 f2 ts1 ts2
    set db1 := (upsert_message db a m uv u f1 ts1).2 with hdb1
    have hany : db1.messages.any (fun r0 => keyMatches r0 a m uv u) = true :=
      upsert_any_keyMatches db a m uv u f1 ts1
    have harch : ∀ r ∈ db1.messages, keyMatches r a m uv u →
        r.archived_at.isSome := upsert_archived_isSome
    refine ⟨?_, ?_, ?_⟩
    · simp [upsert_message, hany]
    · show (((upsert_message db1 a m uv u f2 ts2).2.messages.find?
          (fun r => keyMatches r a m uv u)).map (·.id)).getD 0 =
        ((db1.messages.find? (fun r => keyMatches r a m uv u)).map
          (·.id)).getD 0
      have hmsgs : (upsert_message db1 a m uv u f2 ts2).2.messages =
          db1.messages.map (fun r =>
            if keyMatches r a m uv u then applyUpsertUpdate r f2 ts2 else r) := by
        simp [upsert_message, hany]
      rw [hmsgs, List.find?_map]
      have hcomp : ((fun r => keyMatches r a m uv u) ∘ fun r =>
          if keyMatches r a m uv u then applyUpsertUpdate r f2 ts2 else r) =
          fun r => keyMatches r a m uv u := by
        funext r
        by_cases hk : keyMatches r a m uv u <;>
          simp [hk, keyMatches_applyUpsertUpdate]
      rw [hcomp]
      cases hf : db1.messages.find? (fun r => keyMatches r a m uv u) with
      | none => rfl
      | some rf =>
        have hk : keyMatches rf a m uv u := by simpa using List.find?_some hf
        simp [hk, id_applyUpsertUpdate]
    · have hmsgs : (upsert_message db1 a m uv u f2 ts2).2.messages =
          db1.messages.map (fun r =>
            if keyMatches r a m uv u then applyUpsertUpdate r f2 ts2 else r) := by
        simp [upsert_message, hany]
      rw [hmsgs, List.map_map]
      apply List.map_congr_left
      intro r hr
      by_cases hk : keyMatches r a m uv u
      · have hs := harch r hr hk
        obtain ⟨v, hv⟩ := Option.isSome_iff_exists.mp hs
        simp [hk, applyUpsertUpdate, hv]
      · simp [hk]
  · intro db fk items ts
    constructor
    · rw [show (replace_attachments db fk items ts).attachments =
          db.attachments.filter (fun r => !(r.message_fk == fk)) ++
          items.map _ from rfl]
      rw [List.filter_append]
      rw [List.filter_filter]
      have h1 : (db.attachments.filter
          (fun r => (r.message_fk == fk) && !(r.message_fk == fk))) = [] := by
        apply List.filter_eq_nil_iff.mpr
        intro r _
        by_cases hr : r.message_fk == fk <;> simp [hr]
      have h2 : ∀ x ∈ items.map (fun it =>
          ({ message_fk := fk, filename := it.filename
             mime_type := it.mime_type, size_bytes := it.size_bytes
             rel_path := it.rel_path, content_id := it.content_id
             is_inline := it.is_inline, created_at := ts } : AttRow)),
          x.message_fk == fk := by
        intro x hx
        obtain ⟨it, _, hit⟩ := List.mem_map.mp hx
        rw [← hit]
        simp
      rw [h1, List.nil_append, List.filter_eq_self.mpr h2]
    · rw [show (replace_attachments db fk items ts).attachments =
          db.attachments.filter (fun r => !(r.message_fk == fk)) ++
          items.map _ from rfl]
      rw [List.filter_append, List.filter_filter]
      have h1 : (fun (r : AttRow) => !(r.message_fk == fk) &&
          !(r.message_fk == fk)) = fun r => !(r.message_fk == fk) := by
        funext r
        by_cases hr : r.message_fk == fk <;> simp [hr]
      have h2 : (items.map (fun it =>
          ({ message_fk := fk, filename := it.filename
             mime_type := it.mime_type, size_bytes := it.size_bytes
             rel_path := it.rel_path, content_id := it.content_id
             is_inline := it.is_inline, created_at := ts } : AttRow))).filter
          (fun r => !(r.message_fk == fk)) = [] := by
        apply List.filter_eq_nil_iff.mpr
        intro x hx
        obtain ⟨it, _, hit⟩ := List.mem_map.mp hx
        rw [← hit]
        simp
      rw [h1, h2, List.append_nil]
  · intro db fk items ts
    constructor
    · rw [show (replace_external_assets db fk items ts).external_assets =
          db.external_assets.filter (fun r => !(r.message_fk == fk)) ++
          items.map _ from rfl]
      rw [List.filter_append, List.filter_filter]
      have h1 : (db.external_assets.filter
          (fun r => (r.message_fk == fk) && !(r.message_fk == fk))) = [] := by
        apply List.filter_eq_nil_iff.mpr
        intro r _
        by_cases hr : r.message_fk == fk <;> simp [hr]
      have h2 : ∀ x ∈ items.map (fun it =>
          ({ message_fk := fk, original_url := it.original_url
             rel_path := it.rel_path, mime_type := it.mime_type
             size_bytes := it.size_bytes, status := it.status
             created_at := ts } : ExtRow)),
          x.message_fk == fk := by
        intro x hx
        obtain ⟨it, _, hit⟩ := List.mem_map.mp hx
        rw [← hit]
        simp
      rw [h1, List.nil_append, List.filter_eq_self.mpr h2]
    · rw [show (replace_external_assets db fk items ts).external_assets =
          db.external_assets.filter (fun r => !(r.message_fk == fk)) ++
          items.map _ from rfl]
      rw [List.filter_append, List.filter_filter]
      have h1 : (fun (r : ExtRow) => !(r.message_fk == fk) &&
          !(r.message_fk == fk)) = fun r => !(r.message_fk == fk) := by
        funext r
        by_cases hr : r.message_fk == fk <;> simp [hr]
      have h2 : (items.map (fun it =>
          ({ message_fk := fk, original_url := it.original_url
             rel_path := it.rel_path, mime_type := it.mime_type
             size_bytes := it.size_bytes, status := it.status
             created_at := ts } : ExtRow))).filter
          (fun r => !(r.message_fk == fk)) = [] := by
        apply List.filter_eq_nil_iff.mpr
        intro x hx
        obtain ⟨it, _, hit⟩ := List.mem_map.mp hx
        rw [← hit]
        simp
      rw [h1, h2, List.append_nil]

/-- C6: `get_max_uid` returns the maximum uid among the rows of the given
`(account_id, mailbox, uidvalidity)` whose `seen_marked_at` is non-null, and
`none` when no such row exists; `search_uids` returns the server UIDs sorted
ascending, with every uid `≤ min_uid_exclusive` removed client-side when the
watermark is present. -/
theorem c6_get_max_uid_and_search_uids :
    (∀ (db : MailDb) (a m : String) (uv : Nat),
      (get_max_uid db a m uv = none ↔
        ∀ r ∈ db.messages,
          ¬(r.account_id = a ∧ r.mailbox = m ∧ r.uidvalidity = uv ∧
            r.seen_marked_at.isSome)) ∧
      (∀ n, get_max_uid db a m uv = some n ↔
        (∃ r ∈ db.messages, r.account_id = a ∧ r.mailbox = m ∧
          r.uidvalidity = uv ∧ r.seen_marked_at.isSome ∧ r.uid = n) ∧
        (∀ r ∈ db.messages, r.account_id = a → r.mailbox = m →
          r.uidvalidity = uv → r.seen_marked_at.isSome → r.uid ≤ n))) ∧
    (∀ (serverUids : List Nat) (mue : Option Nat),
      (search_uids serverUids mue).Sorted (· ≤ ·) ∧
      (∀ u, u ∈ search_uids serverUids mue ↔
        u ∈ serverUids ∧ ∀ v, mue = some v → v < u)) := by
  constructor
  · intro db a m uv
    constructor
    · rw [show get_max_uid db a m uv = listMax?
        ((db.messages.filter (fun r =>
          r.account_id == a && r.mailbox == m && r.uidvalidity == uv &&
          r.seen_marked_at.isSome)).map (·.uid)) from rfl]
      rw [listMax?_eq_none_iff]
      simp only [List.map_eq_nil_iff, List.filter_eq_nil_iff, Bool.and_eq_true,
        beq_iff_eq]
      constructor
      · intro h r hr hc
        exact h r hr ⟨⟨⟨hc.1, hc.2.1⟩, hc.2.2.1⟩, hc.2.2.2⟩
      · intro h r hr hc
        exact h r hr ⟨hc.1.1.1, hc.1.1.2, hc.1.2, hc.2⟩
    · intro n
      rw [show get_max_uid db a m uv = listMax?
        ((db.messages.filter (fun r =>
          r.account_id == a && r.mailbox == m && r.uidvalidity == uv &&
          r.seen_marked_at.isSome)).map (·.uid)) from rfl]
      rw [listMax?_eq_some_iff]
      simp only [List.mem_map, List.mem_filter, Bool.and_eq_true, beq_iff_eq]
      constructor
      · rintro ⟨⟨r, ⟨hr, ⟨⟨⟨h1, h2⟩, h3⟩, h4⟩⟩, hu⟩, hub⟩
        refine ⟨⟨r, hr, h1, h2, h3, h4, hu⟩, ?_⟩
        intro r' hr' k1 k2 k3 k4
        exact hub r'.uid ⟨r', ⟨hr', ⟨⟨⟨k1, k2⟩, k3⟩, k4⟩⟩, rfl⟩
      · rintro ⟨⟨r, hr, h1, h2, h3, h4, hu⟩, hub⟩
        refine ⟨⟨r, ⟨hr, ⟨⟨⟨h1, h2⟩, h3⟩, h4⟩⟩, hu⟩, ?_⟩
        rintro x ⟨r', ⟨hr', ⟨⟨⟨k1, k2⟩, k3⟩, k4⟩⟩, hx⟩
        exact hx ▸ hub r' hr' k1 k2 k3 k4
  · intro serverUids mue
    have hsorted : (List.insertionSort (· ≤ ·) serverUids).Sorted (· ≤ ·) :=
      List.sorted_insertionSort (· ≤ ·) serverUids
    have hperm : ∀ u, u ∈ List.insertionSort (· ≤ ·) serverUids ↔
        u ∈ serverUids := fun u =>
      (List.perm_insertionSort (· ≤ ·) serverUids).mem_iff
    cases mue with
    | none =>
      refine ⟨hsorted, ?_⟩
      intro u
      simp only [search_uids, hperm u]
      exact ⟨fun h => ⟨h, by simp⟩, fun h => h.1⟩
    | some v =>
      constructor
      · exact List.Pairwise.filter _ hsorted
      · intro u
        simp only [search_uids, List.mem_filter, hperm u, decide_eq_true_eq]
        constructor
        · rintro ⟨h1, h2⟩
          exact ⟨h1, fun w hw => by cases hw; exact h2⟩
        · rintro ⟨h1, h2⟩
          exact ⟨h1, h2 v rfl⟩

/-- Witness for C6 at a concrete database and server reply. -/
theorem c6_witness :
    (get_max_uid
      { messages := [
          { id := 1, account_id := "u@h", mailbox := "INBOX", uidvalidity := 5,
            uid := 9, seen_marked_at := some "t" },
          { id := 2, account_id := "u@h", mailbox := "INBOX", uidvalidity := 5,
            uid := 11, seen_marked_at := none }],
        nextId := 3 } "u@h" "INBOX" 5 = some 9) ∧
    search_uids [11, 9, 10, 12] (some 10) = [11, 12] := by
  constructor
  · exact ((c6_get_max_uid_and_search_uids.1
      { messages := [
          { id := 1, account_id := "u@h", mailbox := "INBOX", uidvalidity := 5,
            uid := 9, seen_marked_at := some "t" },
          { id := 2, account_id := "u@h", mailbox := "INBOX", uidvalidity := 5,
            uid := 11, seen_marked_at := none }],
        nextId := 3 } "u@h" "INBOX" 5).2 9).mpr (by decide)
  · decide

/-- C1: the sync task sets `archived_at` (inside `upsert_message`) before
`set_exported` and `set_exported` before `set_seen_marked`, for every failure
point of the per-message state machine; consequently the stage-order
invariant — `seen_marked_at` non-null implies `exported_at` non-null implies
`archived_at` non-null — holds in the empty database and is preserved by any
sync run, i.e. it holds in every database state reachable through the sync
task (every reachable state is the final state of a run whose
`StageOutcome` schedule stops at the corresponding transaction boundary). -/
theorem c1_stage_timestamp_order :
    (DbInv MailDb.empty ∧ DbWf MailDb.empty) ∧
    ∀ (llmReady : Bool) (a m : String) (uv : Nat) (db : MailDb)
      (steps : List (MsgStep × String)), DbWf db → DbInv db →
      DbInv (sync_task_run llmReady a m uv db steps).db ∧
      DbWf (sync_task_run llmReady a m uv db steps).db := by
  refine ⟨⟨?_, ?_⟩, ?_⟩
  · intro r hr
    simp [MailDb.empty] at hr
  · exact ⟨fun r hr => by simp [MailDb.empty] at hr, by simp [MailDb.empty]⟩
  · intro llmReady a m uv db steps hwf hinv
    by_cases hl : llmReady
    · simp only [sync_task_run, hl, if_true]
      exact runSync_inv_wf a m uv db steps hwf hinv
    · simp only [sync_task_run, hl, if_false]
      exact ⟨hinv, hwf⟩

/-- Example upsert field values for concrete runs. -/
def sampleFields (n : String) : UpsertFields where
  message_id := some n
  internal_date := some "2025-01-10T09:30:00+09:00"
  from_addr := some "alice@example.com"
  to_addr := some "bob@example.com"
  subject := some n
  raw_eml_path := "raw.eml"
  body_html_path := none
  body_text_path := some "body.txt"
  rendered_html_path := none

/-- Example per-message loop inputs: message 41 fails only at mark-seen,
message 42 succeeds fully. -/
def sampleAtt : AttItem where
  filename := "a.png"
  mime_type := some "image/png"
  size_bytes := 3
  rel_path := "attachments/a.png"
  content_id := some "img1"
  is_inline := true

def sampleStep1 : MsgStep where
  uid := 41
  fields := sampleFields "s41"
  atts := []
  exts := []
  summary := "sum41"
  tags := ["x"]
  topics := []
  personal := false
  sms := some 10
  outcome := .failMarkSeen

def sampleStep2 : MsgStep where
  uid := 42
  fields := sampleFields "s42"
  atts := [sampleAtt]
  exts := []
  summary := "sum42"
  tags := []
  topics := ["k"]
  personal := true
  sms := none
  outcome := .ok

def sampleSteps : List (MsgStep × String) :=
  [(sampleStep1, "t1"), (sampleStep2, "t2")]

/-- Witness for C1: a concrete two-message run (one mark-seen failure, one
success) from the empty database. -/
theorem c1_stage_timestamp_order_witness :
    DbInv (sync_task_run true "u@h" "INBOX" 5 MailDb.empty sampleSteps).db ∧
    DbWf (sync_task_run true "u@h" "INBOX" 5 MailDb.empty sampleSteps).db :=
  c1_stage_timestamp_order.2 true "u@h" "INBOX" 5 MailDb.empty sampleSteps
    (by decide) (by decide)

/-- Step failing at the summarize stage, for the C5 refutation. -/
def sampleStepFail : MsgStep :=
  { sampleStep1 with uid := 10, outcome := .failSummarize }

/-- Counterexample to C5 as stated: with two fetched messages, an exception
in the summarize stage of the first aborts the whole task — the run is
aborted with zero completed iterations and the second message (uid 42) is
never indexed, instead of "processing continues with the next UID". -/
theorem c5_counterexample_abort_propagates :
    (runSync "u@h" "INBOX" 5 MailDb.empty
      [(sampleStepFail, "t1"), (sampleStep2, "t2")]).aborted = true ∧
    (runSync "u@h" "INBOX" 5 MailDb.empty
      [(sampleStepFail, "t1"), (sampleStep2, "t2")]).processed = 0 ∧
    (runSync "u@h" "INBOX" 5 MailDb.empty
      [(sampleStepFail, "t1"), (sampleStep2, "t2")]).db.messages.filter
        (fun r => r.uid == 42) = [] := by
  refine ⟨rfl, rfl, ?_⟩
  decide

/-- C5 amended: in the per-message loop only a mark-seen failure is caught
(aborting just that message's mark step, with the loop continuing); an
exception at the archive, index, summarize or export stage propagates and
aborts the whole task, leaving every later message unprocessed; and an
LLM-not-ready error at task start fails the task without touching the
database. -/
theorem c5_amended_only_mark_seen_caught :
    (∀ (a m : String) (uv : Nat) (db : MailDb) (st : MsgStep) (ts : String),
      (runMessage a m uv db st ts).2 = false ↔
        (st.outcome = .ok ∨ st.outcome = .failMarkSeen)) ∧
    (∀ (a m : String) (uv : Nat) (db : MailDb)
        (steps : List (MsgStep × String)),
      (∀ p ∈ steps, p.1.outcome = .ok ∨ p.1.outcome = .failMarkSeen) →
      (runSync a m uv db steps).aborted = false ∧
      (runSync a m uv db steps).processed = steps.length) ∧
    (∀ (a m : String) (uv : Nat) (db : MailDb)
        (pre : List (MsgStep × String)) (st : MsgStep) (ts : String)
        (suf : List (MsgStep × String)),
      (∀ p ∈ pre, p.1.outcome = .ok ∨ p.1.outcome = .failMarkSeen) →
      ¬(st.outcome = .ok ∨ st.outcome = .failMarkSeen) →
      runSync a m uv db (pre ++ (st, ts) :: suf) =
        ⟨(runMessage a m uv (runSync a m uv db pre).db st ts).1, true,
          pre.length⟩) ∧
    (∀ (a m : String) (uv : Nat) (db : MailDb)
        (steps : List (MsgStep × String)),
      sync_task_run false a m uv db steps = ⟨db, true, 0⟩) := by
  have habort : ∀ (a m : String) (uv : Nat) (db : MailDb) (st : MsgStep)
      (ts : String), (runMessage a m uv db st ts).2 = false ↔
        (st.outcome = .ok ∨ st.outcome = .failMarkSeen) := by
    intro a m uv db st ts
    obtain ⟨uid, fields, atts, exts, summ, tags, topics, pers, sms, outc⟩ := st
    cases outc <;> simp [runMessage]
  have hcons : ∀ (a m : String) (uv : Nat) (db : MailDb)
      (p : MsgStep × String) (rest : List (MsgStep × String)),
      runSync a m uv db (p :: rest) =
        if (runMessage a m uv db p.1 p.2).2 then
          ⟨(runMessage a m uv db p.1 p.2).1, true, 0⟩
        else
          ⟨(runSync a m uv (runMessage a m uv db p.1 p.2).1 rest).db,
           (runSync a m uv (runMessage a m uv db p.1 p.2).1 rest).aborted,
           (runSync a m uv (runMessage a m uv db p.1 p.2).1 rest).processed
             + 1⟩ := fun a m uv db p rest => rfl
  refine ⟨habort, ?_, ?_, ?_⟩
  · intro a m uv db steps h
    induction steps generalizing db with
    | nil => exact ⟨rfl, rfl⟩
    | cons p rest ih =>
      have hp := h p (List.mem_cons_self p rest)
      have hcont : (runMessage a m uv db p.1 p.2).2 = false :=
        (habort a m uv db p.1 p.2).mpr hp
      have ihr := ih (runMessage a m uv db p.1 p.2).1
        (fun q hq => h q (List.mem_cons_of_mem p hq))
      rw [hcons, hcont]
      simp only [Bool.false_eq_true, if_false]
      exact ⟨ihr.1, by simp [ihr.2]⟩
  · intro a m uv db pre st ts suf hpre hst
    induction pre generalizing db with
    | nil =>
      have hab : (runMessage a m uv db st ts).2 = true := by
        cases hab2 : (runMessage a m uv db st ts).2
        · exact absurd ((habort a m uv db st ts).mp hab2) hst
        · rfl
      rw [List.nil_append, hcons, hab]
      simp [runSync]
    | cons p rest ih =>
      have hp := hpre p (List.mem_cons_self p rest)
      have hcont : (runMessage a m uv db p.1 p.2).2 = false :=
        (habort a m uv db p.1 p.2).mpr hp
      have ihr := ih (runMessage a m uv db p.1 p.2).1
        (fun q hq => hpre q (List.mem_cons_of_mem p hq))
      rw [List.cons_append, hcons, hcont]
      simp only [Bool.false_eq_true, if_false]
      rw [ihr, hcons, hcont]
      simp
  · intro a m uv db steps
    rfl

/-- Witness for C5 (amended) at a concrete run: one caught mark-seen
failure, then a fatal summarize failure whose partial effects end the run. -/
theorem c5_amended_witness :
    runSync "u@h" "INBOX" 5 MailDb.empty
        [(sampleStep1, "t1"), (sampleStepFail, "tf"), (sampleStep2, "t2")] =
      ⟨(runMessage "u@h" "INBOX" 5
          (runSync "u@h" "INBOX" 5 MailDb.empty [(sampleStep1, "t1")]).db
          sampleStepFail "tf").1, true, 1⟩ :=
  c5_amended_only_mark_seen_caught.2.2.1 "u@h" "INBOX" 5 MailDb.empty
    [(sampleStep1, "t1")] sampleStepFail "tf" [(sampleStep2, "t2")]
    (by decide) (by decide)

/-! ## URL parsing (`urllib.parse` subset)

The sources use `urlparse(url).scheme`, `.hostname` and `.path`.  The model
implements the relevant slice of `urlsplit`: scheme recognition and
lowercasing, authority extraction after `//`, path up to `?`/`#`, and
hostname extraction (userinfo stripped at the last `@`, bracketed IPv6
kept, port stripped at `:`, lowercased, empty → `None`). -/

/-- Characters allowed in a URL scheme after the initial letter. -/
def isSchemeChar (c : Char) : Bool :=
  c.isAlpha || c.isDigit || c = '+' || c = '-' || c = '.'

/-- Relevant fields of `urllib.parse.urlparse`. -/
structure UrlParts where
  scheme : String
  netloc : String
  path : String
  deriving DecidableEq

/-- Part of the list after the last occurrence of `c` (the whole list when
`c` does not occur) — Python `rpartition` tail. -/
def afterLastChar (c : Char) (l : List Char) : List Char :=
  (l.reverse.takeWhile (· ≠ c)).reverse

/-- Embedding of the used slice of `urllib.parse.urlparse`. -/
def urlparse (url : String) : UrlParts :=
  let cs := url.data
  let pre := cs.takeWhile (· ≠ ':')
  let hasColon := pre.length < cs.length
  let schemeValid := hasColon && pre.length > 0 &&
    (pre.headD ' ').isAlpha && pre.all isSchemeChar
  let scheme := if schemeValid then pyLower ⟨pre⟩ else ""
  let rest := if schemeValid then cs.drop (pre.length + 1) else cs
  match rest with
  | '/' :: '/' :: r2 =>
    let netloc := r2.takeWhile (fun c => c ≠ '/' && c ≠ '?' && c ≠ '#')
    let r3 := r2.drop netloc.length
    let path := r3.takeWhile (fun c => c ≠ '?' && c ≠ '#')
    { scheme := scheme, netloc := ⟨netloc⟩, path := ⟨path⟩ }
  | _ =>
    let path := rest.takeWhile (fun c => c ≠ '?' && c ≠ '#')
    { scheme := scheme, netloc := "", path := ⟨path⟩ }

/-- Embedding of `urllib.parse` `.hostname` on a netloc. -/
def urlHostname (netloc : String) : Option String :=
  let hostinfo := afterLastChar '@' netloc.data
  let h :=
    match hostinfo with
    | '[' :: r => r.takeWhile (· ≠ ']')
    | _ => hostinfo.takeWhile (· ≠ ':')
  if h.isEmpty then none else some (pyLower ⟨h⟩)

/-! ## SSRF guard (`util/net.py`)

`socket.inet_pton(AF_INET, ·)` and the IPv4 classification predicates of the
`ipaddress` module are implemented concretely; IPv6 literal parsing and DNS
resolution (`getaddrinfo` under the 3-second watchdog) are system calls and
enter through the `NetEnv` environment. -/

/-- Strict dotted-quad parser: `socket.inet_pton(AF_INET, host)` (exactly
four decimal octets, 1–3 digits, value ≤ 255, no leading zeros). -/
def parseIPv4Octet (s : List Char) : Option Nat :=
  if s.length = 0 || s.length > 3 then none
  else if !(s.all Char.isDigit) then none
  else if s.length > 1 && s.headD ' ' = '0' then none
  else
    let n := s.foldl (fun acc c => acc * 10 + (c.toNat - 48)) 0
    if n ≤ 255 then some n else none

/-- `inet_pton(AF_INET, host)` returning the 32-bit value. -/
def inet_pton4 (host : String) : Option Nat :=
  match (pySplitChar host '.').map (fun s => parseIPv4Octet s.data) with
  | [some a, some b, some c, some d] =>
    some (((a * 256 + b) * 256 + c) * 256 + d)
  | _ => none

/-- Membership of a 32-bit IPv4 value in the network `a.b.c.d/bits`. -/
def inNet4 (n : Nat) (a b c d bits : Nat) : Bool :=
  n / 2 ^ (32 - bits) == (((a * 256 + b) * 256 + c) * 256 + d) / 2 ^ (32 - bits)

/-- `IPv4Address.is_loopback` (127.0.0.0/8). -/
def v4_is_loopback (n : Nat) : Bool := inNet4 n 127 0 0 0 8

/-- `IPv4Address.is_link_local` (169.254.0.0/16). -/
def v4_is_link_local (n : Nat) : Bool := inNet4 n 169 254 0 0 16

/-- `IPv4Address.is_multicast` (224.0.0.0/4). -/
def v4_is_multicast (n : Nat) : Bool := inNet4 n 224 0 0 0 4

/-- `IPv4Address.is_reserved` (240.0.0.0/4). -/
def v4_is_reserved (n : Nat) : Bool := inNet4 n 240 0 0 0 4

/-- `IPv4Address.is_private`: the `_private_networks` list of the
`ipaddress` module. -/
def v4_is_private (n : Nat) : Bool :=
  inNet4 n 0 0 0 0 8 || inNet4 n 10 0 0 0 8 || inNet4 n 127 0 0 0 8 ||
  inNet4 n 169 254 0 0 16 || inNet4 n 172 16 0 0 12 ||
  inNet4 n 192 0 0 0 29 || inNet4 n 192 0 0 170 31 ||
  inNet4 n 192 0 2 0 24 || inNet4 n 192 168 0 0 16 ||
  inNet4 n 198 18 0 0 15 || inNet4 n 198 51 100 0 24 ||
  inNet4 n 203 0 113 0 24 || inNet4 n 240 0 0 0 4 ||
  inNet4 n 255 255 255 255 32

/-- One address returned by `getaddrinfo`.  IPv4 addresses are concrete;
anything else (IPv6, malformed strings) is abstracted by the truth value
that `_is_private_ip` computes for it (the parser-exception branch of
`_is_private_ip` returns `True` and is covered by `other true`). -/
inductive ResolvedAddr where
  | v4 (n : Nat)
  | other (privateLike : Bool)
  deriving DecidableEq

/-- Embedding of `net._is_private_ip`: private, loopback, link-local,
multicast or reserved (and `True` on parse failure). -/
def is_private_ip : ResolvedAddr → Bool
  | .v4 n =>
    v4_is_private n || v4_is_loopback n || v4_is_link_local n ||
    v4_is_multicast n || v4_is_reserved n
  | .other b => b

/-- Outcome of the watchdogged `getaddrinfo` call: the 3-second watchdog
fired, the resolver raised, or a list of addresses came back. -/
inductive ResolveOutcome where
  | timeout
  | failed
  | ok (addrs : List ResolvedAddr)
  deriving DecidableEq

/-- System-call environment of the network layer: IPv6 literal parsing
(`inet_pton(AF_INET6, ·)` together with the `_is_private_ip` verdict on the
parsed address), DNS resolution, and `hashlib.sha256(url).hexdigest()`. -/
structure NetEnv where
  parseV6 : String → Option Bool
  resolve : String → ResolveOutcome
  sha256hex : String → String

/-- Embedding of `net._validate_public_host`; `Except.error` carries the
`DownloadBlocked` message. -/
def validate_public_host (env : NetEnv) (url : String) : Except String Unit :=
  match urlHostname (urlparse url).netloc with
  | none => .error "missing hostname"
  | some host =>
    if pyLower host == "localhost" then .error "localhost blocked"
    else
      match inet_pton4 host with
      | some n =>
        if is_private_ip (.v4 n) then .error "private ip blocked" else .ok ()
      | none =>
        match env.parseV6 host with
        | some b =>
          if b then .error "private ip blocked" else .ok ()
        | none =>
          match env.resolve host with
          | .timeout => .error "dns resolve timeout"
          | .failed => .error "dns resolve failed"
          | .ok addrs =>
            if addrs.any is_private_ip then .error "private ip blocked"
            else .ok ()

/-- Connect timeout used by `stream_download`: `min(10.0, timeout_s)`. -/
def connectTimeout (timeout_s : ℚ) : ℚ := min 10 timeout_s

/-- HTTP response as seen by `stream_download`: status code and the sizes of
the chunks `iter_content` yields. -/
structure HttpResp where
  status : Nat
  chunks : List Nat
  deriving DecidableEq

/-- Outcome of `requests.get`: a transport error or a response. -/
inductive HttpOutcome where
  | fail (msg : String)
  | resp (r : HttpResp)
  deriving DecidableEq

/-- Per-call clock and transport readings for one `download` invocation:
`time.time() - started` on entry, the `time.monotonic() > deadline`
comparisons at stream start and before each chunk, and the HTTP outcome. -/
structure CallEnv where
  elapsed : ℚ
  monoPastStart : Bool
  monoPastChunk : Nat → Bool
  http : HttpOutcome

/-- Errors escaping `stream_download`: `DownloadBlocked` or any other
exception (HTTP status error, transport error). -/
inductive DlErr where
  | blocked (msg : String)
  | failure (msg : String)
  deriving DecidableEq

/-- Result of driving the `stream_download` generator to completion:
whether `requests.get` was ever issued, and either the yielded chunk sizes
or the exception. -/
structure StreamResult where
  requested : Bool
  out : Except DlErr (List Nat)

/-- The chunk loop of `stream_download`: per-chunk deadline check, empty
chunks skipped, running byte counter checked against `max_bytes`. -/
def runChunks (call : CallEnv) (hasDeadline : Bool) (maxBytes : Nat) :
    List Nat → Nat → Nat → Except DlErr (List Nat)
  | [], _, _ => .ok []
  | c :: rest, j, total =>
    if hasDeadline && call.monoPastChunk j then
      .error (.blocked "time budget exceeded")
    else if c = 0 then runChunks call hasDeadline maxBytes rest (j + 1) total
    else if total + c > maxBytes then
      .error (.blocked "download exceeds max_bytes")
    else
      match runChunks call hasDeadline maxBytes rest (j + 1) (total + c) with
      | .ok cs => .ok (c :: cs)
      | .error e => .error e

/-- Embedding of `net.stream_download`: scheme allowlist, deadline check,
host validation — all before `requests.get` — then status check and the
chunk loop. -/
def stream_download (env : NetEnv) (call : CallEnv) (url : String)
    (maxBytes : Nat) (hasDeadline : Bool) : StreamResult :=
  if !((urlparse url).scheme == "http" || (urlparse url).scheme == "https") then
    { requested := false,
      out := .error (.blocked ("scheme not allowed: " ++ (urlparse url).scheme)) }
  else if hasDeadline && call.monoPastStart then
    { requested := false, out := .error (.blocked "time budget exceeded") }
  else
    match validate_public_host env url with
    | .error msg => { requested := false, out := .error (.blocked msg) }
    | .ok _ =>
      match call.http with
      | .fail msg => { requested := true, out := .error (.failure msg) }
      | .resp r =>
        if r.status ≥ 400 then
          { requested := true,
            out := .error (.failure ("http " ++ toString r.status)) }
        else { requested := true, out := runChunks call hasDeadline maxBytes r.chunks 0 0 }

/-! ## HTML asset rewriter (`archive/html_rewrite.py`)

`BeautifulSoup` traversal is abstracted into the ordered list of `http(s)`
URL occurrences the rewriter encounters (attribute values and CSS `url(...)`
references); each occurrence invokes the inner `download` exactly once and
appends exactly one `ExternalAsset`.  The call with index `k` observes the
clocks through `calls k` (the asset list has length `k` at that moment). -/

/-- The `ExternalAsset` dataclass of `html_rewrite.py`. -/
structure ExternalAsset where
  original_url : String
  rel_path : Option String
  status : String
  mime_type : Option String
  size_bytes : Option Nat
  deriving DecidableEq

/-- Embedding of `html_rewrite._hash_url`:
`sha256(url).hexdigest()[:16]`. -/
def hash_url (env : NetEnv) (url : String) : String :=
  pyTake (env.sha256hex url) 16

/-- Python `PurePath(p).name`: the component after the last slash. -/
def pathName (p : String) : String := ⟨afterLastChar '/' p.data⟩

/-- Python `PurePath(name).suffix`: from the last dot, unless the dot is the
first character or the last character. -/
def pathSuffix (name : String) : String :=
  let cs := name.data
  let tl := cs.reverse.takeWhile (· ≠ '.')
  if tl.length = cs.length then ""
  else
    let i := cs.length - 1 - tl.length
    if 0 < i && i < cs.length - 1 then ⟨cs.drop i⟩ else ""

/-- Does the optional content type contain the fragment (Python
`content_type and sub in content_type`)? -/
def ctHas (content_type : Option String) (sub : String) : Bool :=
  match content_type with
  | none => false
  | some ct => pyContains ct sub

/-- Embedding of `html_rewrite._guess_ext`. -/
def guess_ext (content_type : Option String) (url : String) : String :=
  let p := urlparse url
  let name := pathName p.path
  let suf := pathSuffix name
  if suf ≠ "" && pyLen suf ≤ 6 then suf
  else if ctHas content_type "png" then ".png"
  else if ctHas content_type "jpeg" then ".jpg"
  else if ctHas content_type "gif" then ".gif"
  else if ctHas content_type "webp" then ".webp"
  else if ctHas content_type "svg" then ".svg"
  else if ctHas content_type "css" then ".css"
  else if ctHas content_type "javascript" then ".js"
  else if ctHas content_type "mp4" then ".mp4"
  else ".bin"

/-- Embedding of the inner `download` closure of
`rewrite_html_and_download_assets`: asset-count cap, wall-clock cap, byte
budget, then the streamed transfer; returns the recorded asset and the new
`remaining` budget. -/
def downloadOne (env : NetEnv) (call : CallEnv) (url : String)
    (assetsLen remaining maxAssets maxTotalSeconds : Nat) :
    ExternalAsset × Nat :=
  if assetsLen ≥ maxAssets then
    ({ original_url := url, rel_path := none, status := "skipped_assets_limit",
       mime_type := none, size_bytes := none }, remaining)
  else if call.elapsed > (maxTotalSeconds : ℚ) then
    ({ original_url := url, rel_path := none, status := "skipped_time_budget",
       mime_type := none, size_bytes := none }, remaining)
  else if remaining = 0 then
    ({ original_url := url, rel_path := none, status := "skipped_limit",
       mime_type := none, size_bytes := none }, remaining)
  else
    match (stream_download env call url remaining true).out with
    | .ok chunks =>
      let written := chunks.sum
      ({ original_url := url,
         rel_path := some ("external/" ++ hash_url env url ++ guess_ext none url),
         status := "downloaded", mime_type := none,
         size_bytes := some written }, remaining - written)
    | .error (.blocked msg) =>
      ({ original_url := url, rel_path := none, status := "blocked:" ++ msg,
         mime_type := none, size_bytes := none }, remaining)
    | .error (.failure msg) =>
      ({ original_url := url, rel_path := none, status := "error:" ++ msg,
         mime_type := none, size_bytes := none }, remaining)

/-- The rewrite loop over URL occurrences: each occurrence downloads once
and appends one asset. -/
def rewriteAssetsLoop (env : NetEnv) (calls : Nat → CallEnv)
    (maxAssets maxTotalSeconds : Nat) :
    List String → List ExternalAsset × Nat → List ExternalAsset × Nat
  | [], st => st
  | url :: rest, (assets, remaining) =>
    let r := downloadOne env (calls assets.length) url assets.length remaining
      maxAssets maxTotalSeconds
    rewriteAssetsLoop env calls maxAssets maxTotalSeconds rest
      (assets ++ [r.1], r.2)

/-- Default caps from the signature of `rewrite_html_and_download_assets`. -/
def defaultMaxAssets : Nat := 120

/-- Default wall-clock budget (seconds). -/
def defaultMaxTotalSeconds : Nat := 90

/-- Embedding of `rewrite_html_and_download_assets` restricted to its asset
side effects: the recorded assets and the remaining byte budget (`urls` is
the ordered list of `http(s)` references found in the document). -/
def rewrite_html_and_download_assets (env : NetEnv) (calls : Nat → CallEnv)
    (urls : List String) (max_total_bytes : Nat) :
    List ExternalAsset × Nat :=
  rewriteAssetsLoop env calls defaultMaxAssets defaultMaxTotalSeconds urls
    ([], max_total_bytes)

/-! ### Status-string disambiguation -/

theorem blocked_ne_downloaded (msg : String) :
    ("blocked:" ++ msg) ≠ "downloaded" := by
  intro h
  have h2 := congrArg String.data h
  rw [String.data_append] at h2
  rw [show "blocked:".data = ['b', 'l', 'o', 'c', 'k', 'e', 'd', ':'] from rfl,
    show "downloaded".data =
      ['d', 'o', 'w', 'n', 'l', 'o', 'a', 'd', 'e', 'd'] from rfl] at h2
  simp at h2

theorem error_ne_downloaded (msg : String) :
    ("error:" ++ msg) ≠ "downloaded" := by
  intro h
  have h2 := congrArg String.data h
  rw [String.data_append] at h2
  rw [show "error:".data = ['e', 'r', 'r', 'o', 'r', ':'] from rfl,
    show "downloaded".data =
      ['d', 'o', 'w', 'n', 'l', 'o', 'a', 'd', 'e', 'd'] from rfl] at h2
  simp at h2

/-! ### Byte accounting of the chunk loop -/

theorem runChunks_ok_sum (call : CallEnv) (hd : Bool) (maxBytes : Nat) :
    ∀ (chunks : List Nat) (j total : Nat) (cs : List Nat),
      total ≤ maxBytes →
      runChunks call hd maxBytes chunks j total = .ok cs →
      total + cs.sum ≤ maxBytes := by
  intro chunks
  induction chunks with
  | nil =>
    intro j total cs htot h
    simp only [runChunks] at h
    cases h
    simpa using htot
  | cons c rest ih =>
    intro j total cs htot h
    simp only [runChunks] at h
    by_cases hdl : hd && call.monoPastChunk j
    · rw [if_pos hdl] at h; cases h
    · rw [if_neg hdl] at h
      by_cases hc0 : c = 0
      · rw [if_pos hc0] at h
        have := ih (j + 1) total cs htot h
        omega
      · rw [if_neg hc0] at h
        by_cases hover : total + c > maxBytes
        · rw [if_pos hover] at h; cases h
        · rw [if_neg hover] at h
          cases hrec : runChunks call hd maxBytes rest (j + 1) (total + c) with
          | error e => rw [hrec] at h; cases h
          | ok cs2 =>
            rw [hrec] at h
            cases h
            have := ih (j + 1) (total + c) cs2 (by omega) hrec
            simp only [List.sum_cons]
            omega

/-! ### Per-call properties of `download` -/

/-- A successful `stream_download` never yields more than `max_bytes`. -/
theorem stream_download_ok_sum (env : NetEnv) (call : CallEnv) (url : String)
    (maxBytes : Nat) (hd : Bool) (chunks : List Nat)
    (h : (stream_download env call url maxBytes hd).out = .ok chunks) :
    chunks.sum ≤ maxBytes := by
  unfold stream_download at h
  by_cases hsch : !((urlparse url).scheme == "http" ||
      (urlparse url).scheme == "https")
  · rw [if_pos hsch] at h; cases h
  · rw [if_neg hsch] at h
    by_cases hmono : hd && call.monoPastStart
    · rw [if_pos hmono] at h; cases h
    · rw [if_neg hmono] at h
      cases hval : validate_public_host env url with
      | error e => rw [hval] at h; cases h
      | ok u =>
        rw [hval] at h
        dsimp only [] at h
        cases hhttp : call.http with
        | fail msg => rw [hhttp] at h; cases h
        | resp r =>
          rw [hhttp] at h
          dsimp only [] at h
          by_cases hst : r.status ≥ 400
          · rw [if_pos hst] at h; cases h
          · rw [if_neg hst] at h
            dsimp only [] at h
            have h0 := runChunks_ok_sum call hd maxBytes r.chunks 0 0 chunks
              (Nat.zero_le _) h
            omega

/-- Shape of the asset recorded by one `download` call: `rel_path` is set
exactly for status `downloaded`, in which case it is
`external/<sha256(url)[:16]><guessed ext>`; the byte budget decreases
exactly by the bytes written, which never exceed the remaining budget; a
download only starts while the asset count is below the cap and the
wall-clock budget is not exhausted; and past the wall clock (below the
count cap) the recorded status is `skipped_time_budget`. -/
theorem downloadOne_spec (env : NetEnv) (call : CallEnv) (url : String)
    (k rem ma mts : Nat) :
    ((downloadOne env call url k rem ma mts).1.original_url = url) ∧
    ((downloadOne env call url k rem ma mts).1.rel_path ≠ none ↔
      (downloadOne env call url k rem ma mts).1.status = "downloaded") ∧
    ((downloadOne env call url k rem ma mts).1.status = "downloaded" →
      (downloadOne env call url k rem ma mts).1.rel_path =
        some ("external/" ++ hash_url env url ++ guess_ext none url) ∧
      (downloadOne env call url k rem ma mts).1.size_bytes.getD 0 ≤ rem ∧
      (downloadOne env call url k rem ma mts).2 +
        (downloadOne env call url k rem ma mts).1.size_bytes.getD 0 = rem ∧
      k < ma ∧ ¬(call.elapsed > (mts : ℚ))) ∧
    ((downloadOne env call url k rem ma mts).1.status ≠ "downloaded" →
      (downloadOne env call url k rem ma mts).2 = rem) ∧
    (k < ma → call.elapsed > (mts : ℚ) →
      (downloadOne env call url k rem ma mts).1.status =
        "skipped_time_budget") := by
  by_cases hk : k ≥ ma
  · have hred : downloadOne env call url k rem ma mts =
        ({ original_url := url, rel_path := none,
           status := "skipped_assets_limit", mime_type := none,
           size_bytes := none }, rem) := by
      simp [downloadOne, hk]
    rw [hred]
    refine ⟨rfl, by simp, by simp, fun _ => rfl, fun h1 _ => absurd h1 (by omega)⟩
  · have hk2 : ¬ k ≥ ma := hk
    by_cases ht : call.elapsed > (mts : ℚ)
    · have hred : downloadOne env call url k rem ma mts =
          ({ original_url := url, rel_path := none,
             status := "skipped_time_budget", mime_type := none,
             size_bytes := none }, rem) := by
        simp [downloadOne, hk2, ht]
      rw [hred]
      refine ⟨rfl, by simp, by simp, fun _ => rfl, fun _ _ => rfl⟩
    · by_cases hrem : rem = 0
      · have hred : downloadOne env call url k rem ma mts =
            ({ original_url := url, rel_path := none,
               status := "skipped_limit", mime_type := none,
               size_bytes := none }, rem) := by
          simp [downloadOne, hk2, ht, hrem]
        rw [hred]
        exact ⟨rfl, by simp, by simp, fun _ => rfl, fun _ h2 => absurd h2 ht⟩
      · cases hout : (stream_download env call url rem true).out with
        | ok chunks =>
          have hred : downloadOne env call url k rem ma mts =
              ({ original_url := url,
                 rel_path := some ("external/" ++ hash_url env url ++
                   guess_ext none url),
                 status := "downloaded", mime_type := none,
                 size_bytes := some chunks.sum }, rem - chunks.sum) := by
            simp [downloadOne, hk2, ht, hrem, hout]
          have hsum : chunks.sum ≤ rem :=
            stream_download_ok_sum env call url rem true chunks hout
          rw [hred]
          refine ⟨rfl, by simp, ?_, ?_, fun _ h2 => absurd h2 ht⟩
          · intro _
            refine ⟨rfl, by simpa using hsum, ?_, by omega, ht⟩
            simp only [Option.getD_some]
            omega
          · intro hcontra
            exact absurd rfl hcontra
        | error e =>
          cases e with
          | blocked msg =>
            have hred : downloadOne env call url k rem ma mts =
                ({ original_url := url, rel_path := none,
                   status := "blocked:" ++ msg, mime_type := none,
                   size_bytes := none }, rem) := by
              simp [downloadOne, hk2, ht, hrem, hout]
            rw [hred]
            refine ⟨rfl, ?_, ?_, fun _ => rfl, fun _ h2 => absurd h2 ht⟩
            · constructor
              · intro hcontra; exact absurd rfl hcontra
              · intro hcontra; exact absurd hcontra (blocked_ne_downloaded msg)
            · intro hcontra; exact absurd hcontra (blocked_ne_downloaded msg)
          | failure msg =>
            have hred : downloadOne env call url k rem ma mts =
                ({ original_url := url, rel_path := none,
                   status := "error:" ++ msg, mime_type := none,
                   size_bytes := none }, rem) := by
              simp [downloadOne, hk2, ht, hrem, hout]
            rw [hred]
            refine ⟨rfl, ?_, ?_, fun _ => rfl, fun _ h2 => absurd h2 ht⟩
            · constructor
              · intro hcontra; exact absurd rfl hcontra
              · intro hcontra; exact absurd hcontra (error_ne_downloaded msg)
            · intro hcontra; exact absurd hcontra (error_ne_downloaded msg)

/-! ### The asset loop invariants -/

/-- Total bytes recorded for assets with status `downloaded`. -/
def downloadedBytes (assets : List ExternalAsset) : Nat :=
  ((assets.filter (fun a => a.status == "downloaded")).map
    (fun a => a.size_bytes.getD 0)).sum

/-- Number of assets with status `downloaded`. -/
def downloadedCount (assets : List ExternalAsset) : Nat :=
  (assets.filter (fun a => a.status == "downloaded")).length

theorem downloadedBytes_append (l1 l2 : List ExternalAsset) :
    downloadedBytes (l1 ++ l2) = downloadedBytes l1 + downloadedBytes l2 := by
  simp [downloadedBytes, List.filter_append]

theorem downloadedCount_append (l1 l2 : List ExternalAsset) :
    downloadedCount (l1 ++ l2) = downloadedCount l1 + downloadedCount l2 := by
  simp [downloadedCount, List.filter_append]

theorem downloadedCount_le_length (l : List ExternalAsset) :
    downloadedCount l ≤ l.length := List.length_filter_le _ _

theorem getElem?_concat {α : Type} (l : List α) (a : α) (k : Nat) :
    (l ++ [a])[k]? = if k < l.length then l[k]?
      else if k = l.length then some a else none := by
  rw [List.getElem?_append]
  by_cases h1 : k < l.length
  · rw [if_pos h1, if_pos h1]
  · rw [if_neg h1, if_neg h1]
    by_cases h2 : k = l.length
    · subst h2
      simp
    · rw [if_neg h2]
      rw [List.getElem?_eq_none (by simp; omega)]

/-- Main invariant of the rewrite loop: exact byte accounting against the
remaining budget, the downloaded-count cap, and per-index provenance (every
asset at position `k` beyond the initial accumulator was produced by the
`download` call with asset-count `k`). -/
theorem rewriteAssetsLoop_spec (env : NetEnv) (calls : Nat → CallEnv)
    (ma mts : Nat) :
    ∀ (urls : List String) (acc : List ExternalAsset) (rem : Nat),
      ((rewriteAssetsLoop env calls ma mts urls (acc, rem)).2 +
        downloadedBytes (rewriteAssetsLoop env calls ma mts urls (acc, rem)).1
        = rem + downloadedBytes acc) ∧
      (downloadedCount acc ≤ ma →
        downloadedCount (rewriteAssetsLoop env calls ma mts urls
          (acc, rem)).1 ≤ ma) ∧
      (∀ k a, (rewriteAssetsLoop env calls ma mts urls (acc, rem)).1[k]? =
          some a →
        acc[k]? = some a ∨
        ∃ url rk, a = (downloadOne env (calls k) url k rk ma mts).1) := by
  intro urls
  induction urls with
  | nil =>
    intro acc rem
    exact ⟨rfl, fun h => h, fun k a h => Or.inl h⟩
  | cons url rest ih =>
    intro acc rem
    have hspec := downloadOne_spec env (calls acc.length) url acc.length rem
      ma mts
    set r := downloadOne env (calls acc.length) url acc.length rem ma mts
      with hr
    have hloop : rewriteAssetsLoop env calls ma mts (url :: rest) (acc, rem) =
        rewriteAssetsLoop env calls ma mts rest (acc ++ [r.1], r.2) := rfl
    have ihr := ih (acc ++ [r.1]) r.2
    rw [hloop]
    refine ⟨?_, ?_, ?_⟩
    · rw [ihr.1, downloadedBytes_append]
      by_cases hdl : r.1.status = "downloaded"
      · obtain ⟨_, hle, hacct, _, _⟩ := hspec.2.2.1 hdl
        have hone : downloadedBytes [r.1] = r.1.size_bytes.getD 0 := by
          simp [downloadedBytes, List.filter, hdl]
        omega
      · have hrem := hspec.2.2.2.1 hdl
        have hone : downloadedBytes [r.1] = 0 := by
          simp only [downloadedBytes, List.filter]
          rw [show (r.1.status == "downloaded") = false by simpa using hdl]
          rfl
        omega
    · intro hacc
      apply ihr.2.1
      rw [downloadedCount_append]
      by_cases hdl : r.1.status = "downloaded"
      · obtain ⟨_, _, _, hlt, _⟩ := hspec.2.2.1 hdl
        have hone : downloadedCount [r.1] = 1 := by
          simp [downloadedCount, List.filter, hdl]
        have hlen := downloadedCount_le_length acc
        omega
      · have hone : downloadedCount [r.1] = 0 := by
          simp only [downloadedCount, List.filter]
          rw [show (r.1.status == "downloaded") = false by simpa using hdl]
          rfl
        omega
    · intro k a h
      rcases ihr.2.2 k a h with hin | hnew
      · rw [getElem?_concat] at hin
        by_cases h1 : k < acc.length
        · rw [if_pos h1] at hin
          exact Or.inl hin
        · rw [if_neg h1] at hin
          by_cases h2 : k = acc.length
          · rw [if_pos h2] at hin
            refine Or.inr ⟨url, rem, ?_⟩
            cases hin
            rw [h2, hr]
          · rw [if_neg h2] at hin
            cases hin
      · exact Or.inr hnew

/-- C9: every `ExternalAsset` record produced by
`rewrite_html_and_download_assets` has `rel_path` non-`None` exactly when its
status is `downloaded`, and a downloaded asset's `rel_path` is
`external/` + the first 16 hex characters of `sha256(original_url)` + the
extension guessed from the URL. -/
theorem c9_asset_rel_path_iff_downloaded (env : NetEnv)
    (calls : Nat → CallEnv) (urls : List String) (mtb : Nat) :
    ∀ a ∈ (rewrite_html_and_download_assets env calls urls mtb).1,
      (a.rel_path ≠ none ↔ a.status = "downloaded") ∧
      (a.status = "downloaded" →
        a.rel_path = some ("external/" ++
          pyTake (env.sha256hex a.original_url) 16 ++
          guess_ext none a.original_url)) := by
  intro a ha
  obtain ⟨k, hk⟩ := List.getElem?_of_mem ha
  have hprov := (rewriteAssetsLoop_spec env calls defaultMaxAssets
    defaultMaxTotalSeconds urls [] mtb).2.2 k a hk
  rcases hprov with hin | ⟨url, rk, hnew⟩
  · simp at hin
  · have hspec := downloadOne_spec env (calls k) url k rk defaultMaxAssets
      defaultMaxTotalSeconds
    have hurl : a.original_url = url := by rw [hnew]; exact hspec.1
    constructor
    · rw [hnew]; exact hspec.2.1
    · intro hdl
      rw [hnew]
      have hrel := (hspec.2.2.1 (by rw [← hnew]; exact hdl)).1
      rw [hspec.1, hrel]
      rfl

/-- C4: over one invocation of `rewrite_html_and_download_assets`, the bytes
stored for `downloaded` assets never exceed `max_total_bytes`; the number of
`downloaded` assets never exceeds `max_assets = 120`; no download starts
once the wall clock has passed `max_total_seconds = 90` (a `downloaded`
asset at position `k` implies the elapsed time observed by call `k` was at
most 90 s); and a URL reached past the 90 s budget while the asset count is
still below 120 is recorded as `skipped_time_budget`. -/
theorem c4_resource_caps (env : NetEnv) (calls : Nat → CallEnv)
    (urls : List String) (mtb : Nat) :
    downloadedBytes (rewrite_html_and_download_assets env calls urls mtb).1
      ≤ mtb ∧
    downloadedCount (rewrite_html_and_download_assets env calls urls mtb).1
      ≤ 120 ∧
    (∀ k a, (rewrite_html_and_download_assets env calls urls mtb).1[k]? =
        some a → a.status = "downloaded" → (calls k).elapsed ≤ 90) ∧
    (∀ k a, (rewrite_html_and_download_assets env calls urls mtb).1[k]? =
        some a → k < 120 → (calls k).elapsed > 90 →
        a.status = "skipped_time_budget") := by
  have hspec := rewriteAssetsLoop_spec env calls defaultMaxAssets
    defaultMaxTotalSeconds urls [] mtb
  refine ⟨?_, ?_, ?_, ?_⟩
  · have h1 := hspec.1
    rw [show downloadedBytes [] = 0 from rfl] at h1
    show downloadedBytes (rewriteAssetsLoop env calls defaultMaxAssets
      defaultMaxTotalSeconds urls ([], mtb)).1 ≤ mtb
    omega
  · exact hspec.2.1 (by simp [downloadedCount])
  · intro k a hk hdl
    rcases hspec.2.2 k a hk with hin | ⟨url, rk, hnew⟩
    · simp at hin
    · have hd2 := downloadOne_spec env (calls k) url k rk defaultMaxAssets
        defaultMaxTotalSeconds
      have := (hd2.2.2.1 (by rw [← hnew]; exact hdl)).2.2.2.2
      have h90 : ((defaultMaxTotalSeconds : Nat) : ℚ) = (90 : ℚ) := by
        norm_num [defaultMaxTotalSeconds]
      rw [h90] at this
      exact le_of_not_lt this
  · intro k a hk hlt helapsed
    rcases hspec.2.2 k a hk with hin | ⟨url, rk, hnew⟩
    · simp at hin
    · have hd2 := downloadOne_spec env (calls k) url k rk defaultMaxAssets
        defaultMaxTotalSeconds
      rw [hnew]
      apply hd2.2.2.2.2
      · exact hlt
      · show (calls k).elapsed > ((defaultMaxTotalSeconds : Nat) : ℚ)
        have h90 : ((defaultMaxTotalSeconds : Nat) : ℚ) = (90 : ℚ) := by
          norm_num [defaultMaxTotalSeconds]
        rw [h90]
        exact helapsed

/-! ### Concrete environment for the asset-loop witnesses -/

/-- Concrete network environment (public host, fixed digest). -/
def wNetEnv : NetEnv where
  parseV6 := fun _ => none
  resolve := fun _ => .ok [.other false]
  sha256hex := fun _ =>
    "0123456789abcdef0123456789abcdef0123456789abcdef0123456789abcdef"

/-- Concrete per-call clocks: the second call happens past the 90 s budget;
the HTTP layer answers 200 with two chunks of 5 and 7 bytes. -/
def wCalls : Nat → CallEnv := fun k =>
  { elapsed := if k = 1 then 100 else 0
    monoPastStart := false
    monoPastChunk := fun _ => false
    http := .resp { status := 200, chunks := [5, 7] } }

/-- Two URL occurrences in one document. -/
def wUrls : List String :=
  ["http://cdn.example.com/img.png", "http://cdn.example.com/b.gif"]

/-- The asset recorded for the first occurrence (downloaded). -/
def wAsset0 : ExternalAsset where
  original_url := "http://cdn.example.com/img.png"
  rel_path := some "external/0123456789abcdef.png"
  status := "downloaded"
  mime_type := none
  size_bytes := some 12

/-- The asset recorded for the second occurrence (past the time budget). -/
def wAsset1 : ExternalAsset where
  original_url := "http://cdn.example.com/b.gif"
  rel_path := none
  status := "skipped_time_budget"
  mime_type := none
  size_bytes := none

/-- Witness for C9 at the concrete environment. -/
theorem c9_asset_witness :
    wAsset0 ∈ (rewrite_html_and_download_assets wNetEnv wCalls wUrls 1000).1 ∧
    ((wAsset0.rel_path ≠ none ↔ wAsset0.status = "downloaded") ∧
      (wAsset0.status = "downloaded" →
        wAsset0.rel_path = some ("external/" ++
          pyTake (wNetEnv.sha256hex wAsset0.original_url) 16 ++
          guess_ext none wAsset0.original_url))) :=
  ⟨by decide,
   c9_asset_rel_path_iff_downloaded wNetEnv wCalls wUrls 1000 wAsset0
     (by decide)⟩

/-- Witness for C4 at the concrete environment. -/
theorem c4_resource_caps_witness :
    downloadedBytes
      (rewrite_html_and_download_assets wNetEnv wCalls wUrls 1000).1 ≤ 1000 ∧
    downloadedCount
      (rewrite_html_and_download_assets wNetEnv wCalls wUrls 1000).1 ≤ 120 ∧
    (wCalls 0).elapsed ≤ 90 ∧
    wAsset1.status = "skipped_time_budget" :=
  ⟨(c4_resource_caps wNetEnv wCalls wUrls 1000).1,
   (c4_resource_caps wNetEnv wCalls wUrls 1000).2.1,
   (c4_resource_caps wNetEnv wCalls wUrls 1000).2.2.1 0 wAsset0 (by decide)
     (by decide),
   (c4_resource_caps wNetEnv wCalls wUrls 1000).2.2.2 1 wAsset1 (by decide)
     (by decide) (by decide)⟩

/-! ### C3: the SSRF guard -/

/-- Concrete call environment for the C3 refutation: the HTTP layer answers
200 with one 3-byte chunk. -/
def cCall : CallEnv where
  elapsed := 0
  monoPastStart := false
  monoPastChunk := fun _ => false
  http := .resp { status := 200, chunks := [3] }

/-- Counterexample to C3 as stated: `8.8.8.8` is an IP literal (accepted by
`inet_pton(AF_INET, ·)`), yet `stream_download` does not raise
`DownloadBlocked` — the transfer succeeds and the HTTP request is issued,
because `_validate_public_host` only rejects IP literals that classify as
private/loopback/link-local/multicast/reserved. -/
theorem c3_counterexample_public_ip_literal :
    (inet_pton4 "8.8.8.8").isSome = true ∧
    (stream_download wNetEnv cCall "http://8.8.8.8/x.png" 100 true).requested
      = true ∧
    (stream_download wNetEnv cCall "http://8.8.8.8/x.png" 100 true).out =
      .ok [3] :=
  ⟨rfl, rfl, rfl⟩

theorem stream_download_requested_imp (env : NetEnv) (call : CallEnv)
    (url : String) (maxBytes : Nat) (hd : Bool)
    (h : (stream_download env call url maxBytes hd).requested = true) :
    ((urlparse url).scheme = "http" ∨ (urlparse url).scheme = "https") ∧
    validate_public_host env url = .ok () := by
  unfold stream_download at h
  by_cases hsch : !((urlparse url).scheme == "http" ||
      (urlparse url).scheme == "https")
  · rw [if_pos hsch] at h; cases h
  · have hs2 : ((urlparse url).scheme == "http" ||
        (urlparse url).scheme == "https") = true := by
      cases hb : ((urlparse url).scheme == "http" ||
          (urlparse url).scheme == "https")
      · exact absurd (by simp [hb]) hsch
      · rfl
    have hs : (urlparse url).scheme = "http" ∨
        (urlparse url).scheme = "https" := by simpa using hs2
    rw [if_neg hsch] at h
    by_cases hmono : hd && call.monoPastStart
    · rw [if_pos hmono] at h; cases h
    · rw [if_neg hmono] at h
      cases hval : validate_public_host env url with
      | error e => rw [hval] at h; cases h
      | ok u =>
        cases u
        exact ⟨hs, rfl⟩

theorem stream_download_of_blocked (env : NetEnv) (call : CallEnv)
    (url : String) (maxBytes : Nat) (hd : Bool) (msg : String)
    (hsch : (urlparse url).scheme = "http" ∨ (urlparse url).scheme = "https")
    (hmono : (hd && call.monoPastStart) = false)
    (hval : validate_public_host env url = .error msg) :
    stream_download env call url maxBytes hd =
      { requested := false, out := .error (.blocked msg) } := by
  unfold stream_download
  have hs : (!((urlparse url).scheme == "http" ||
      (urlparse url).scheme == "https")) = false := by
    rcases hsch with h | h <;> simp [h]
  rw [hs]
  simp only [Bool.false_eq_true, if_false]
  rw [hmono]
  simp only [Bool.false_eq_true, if_false]
  rw [hval]

theorem validate_localhost (env : NetEnv) (url h : String)
    (hh : urlHostname (urlparse url).netloc = some h)
    (hl : pyLower h = "localhost") :
    validate_public_host env url = .error "localhost blocked" := by
  unfold validate_public_host
  rw [hh]
  dsimp only []
  rw [show (pyLower h == "localhost") = true by simp [hl]]
  rfl

theorem validate_private_v4_literal (env : NetEnv) (url h : String) (n : Nat)
    (hh : urlHostname (urlparse url).netloc = some h)
    (hl : pyLower h ≠ "localhost")
    (hp : inet_pton4 h = some n) (hpriv : is_private_ip (.v4 n) = true) :
    validate_public_host env url = .error "private ip blocked" := by
  unfold validate_public_host
  rw [hh]
  dsimp only []
  rw [show (pyLower h == "localhost") = false by simpa using hl]
  simp only [Bool.false_eq_true, if_false]
  rw [hp]
  dsimp only []
  rw [hpriv]
  rfl

theorem validate_resolve_cases (env : NetEnv) (url h : String)
    (hh : urlHostname (urlparse url).netloc = some h)
    (hl : pyLower h ≠ "localhost")
    (hp4 : inet_pton4 h = none) (hp6 : env.parseV6 h = none) :
    (env.resolve h = .timeout →
      validate_public_host env url = .error "dns resolve timeout") ∧
    (env.resolve h = .failed →
      validate_public_host env url = .error "dns resolve failed") ∧
    (∀ addrs, env.resolve h = .ok addrs → addrs.any is_private_ip = true →
      validate_public_host env url = .error "private ip blocked") := by
  have hbase : validate_public_host env url =
      match env.resolve h with
      | .timeout => .error "dns resolve timeout"
      | .failed => .error "dns resolve failed"
      | .ok addrs =>
        if addrs.any is_private_ip then .error "private ip blocked"
        else .ok () := by
    unfold validate_public_host
    rw [hh]
    dsimp only []
    rw [show (pyLower h == "localhost") = false by simpa using hl]
    simp only [Bool.false_eq_true, if_false]
    rw [hp4]
    dsimp only []
    rw [hp6]
  refine ⟨?_, ?_, ?_⟩
  · intro hres; rw [hbase, hres]
  · intro hres; rw [hbase, hres]
  · intro addrs hres hany
    rw [hbase, hres]
    dsimp only []
    rw [hany]
    rfl

/-- C3 amended: `stream_download` issues an HTTP request only when the
scheme is `http`/`https` and `_validate_public_host` accepts the URL; when
validation rejects it — missing hostname, `localhost`, an IP literal
classified private/loopback/link-local/multicast/reserved (a public IP
literal is allowed through, which is what the counterexample exhibits), a
host resolving to such an address, or a DNS-watchdog timeout — the
generator raises `DownloadBlocked` with no request issued, and the asset is
recorded with status `blocked:` + reason; a DNS resolution that exceeds the
3-second watchdog yields exactly `blocked:dns resolve timeout`. -/
theorem c3_amended_ssrf_guard :
    (∀ (env : NetEnv) (call : CallEnv) (url : String) (maxBytes : Nat)
        (hd : Bool),
      (stream_download env call url maxBytes hd).requested = true →
        ((urlparse url).scheme = "http" ∨ (urlparse url).scheme = "https") ∧
        validate_public_host env url = .ok ()) ∧
    (∀ (env : NetEnv) (call : CallEnv) (url : String) (k rem ma mts : Nat)
        (msg : String),
      k < ma → ¬(call.elapsed > (mts : ℚ)) → rem ≠ 0 →
      ((urlparse url).scheme = "http" ∨ (urlparse url).scheme = "https") →
      call.monoPastStart = false →
      validate_public_host env url = .error msg →
      (downloadOne env call url k rem ma mts).1.status = "blocked:" ++ msg ∧
      (stream_download env call url rem true).requested = false) ∧
    (∀ (env : NetEnv) (url h : String),
      urlHostname (urlparse url).netloc = some h →
      ((pyLower h = "localhost" →
        validate_public_host env url = .error "localhost blocked") ∧
       (pyLower h ≠ "localhost" → ∀ n, inet_pton4 h = some n →
        is_private_ip (.v4 n) = true →
        validate_public_host env url = .error "private ip blocked") ∧
       (pyLower h ≠ "localhost" → inet_pton4 h = none →
        env.parseV6 h = none →
        (env.resolve h = .timeout →
          validate_public_host env url = .error "dns resolve timeout") ∧
        (∀ addrs, env.resolve h = .ok addrs →
          addrs.any is_private_ip = true →
          validate_public_host env url = .error "private ip blocked")))) ∧
    (∀ (env : NetEnv) (call : CallEnv) (url h : String) (k rem ma mts : Nat),
      k < ma → ¬(call.elapsed > (mts : ℚ)) → rem ≠ 0 →
      ((urlparse url).scheme = "http" ∨ (urlparse url).scheme = "https") →
      call.monoPastStart = false →
      urlHostname (urlparse url).netloc = some h →
      pyLower h ≠ "localhost" → inet_pton4 h = none → env.parseV6 h = none →
      env.resolve h = .timeout →
      (downloadOne env call url k rem ma mts).1.status =
        "blocked:dns resolve timeout") := by
  have hblockedStatus : ∀ (env : NetEnv) (call : CallEnv) (url : String)
      (k rem ma mts : Nat) (msg : String),
      k < ma → ¬(call.elapsed > (mts : ℚ)) → rem ≠ 0 →
      ((urlparse url).scheme = "http" ∨ (urlparse url).scheme = "https") →
      call.monoPastStart = false →
      validate_public_host env url = .error msg →
      (downloadOne env call url k rem ma mts).1.status = "blocked:" ++ msg ∧
      (stream_download env call url rem true).requested = false := by
    intro env call url k rem ma mts msg hk ht hrem hsch hmono hval
    have hm : (true && call.monoPastStart) = false := by simp [hmono]
    have hstream := stream_download_of_blocked env call url rem true msg hsch
      hm hval
    constructor
    · have hred : downloadOne env call url k rem ma mts =
          ({ original_url := url, rel_path := none,
             status := "blocked:" ++ msg, mime_type := none,
             size_bytes := none }, rem) := by
        simp [downloadOne, Nat.not_le.mpr hk, ht, hrem, hstream]
      rw [hred]
    · rw [hstream]
  refine ⟨stream_download_requested_imp, hblockedStatus, ?_, ?_⟩
  · intro env url h hh
    refine ⟨validate_localhost env url h hh, ?_, ?_⟩
    · intro hl n hp hpriv
      exact validate_private_v4_literal env url h n hh hl hp hpriv
    · intro hl hp4 hp6
      have hr := validate_resolve_cases env url h hh hl hp4 hp6
      exact ⟨hr.1, hr.2.2⟩
  · intro env call url h k rem ma mts hk ht hrem hsch hmono hh hl hp4 hp6 hres
    have hval : validate_public_host env url = .error "dns resolve timeout" :=
      (validate_resolve_cases env url h hh hl hp4 hp6).1 hres
    exact (hblockedStatus env call url k rem ma mts "dns resolve timeout" hk
      ht hrem hsch hmono hval).1

/-- Witness for C3 (amended): a host whose resolution hits the watchdog
records exactly `blocked:dns resolve timeout`, with no request issued. -/
theorem c3_amended_witness :
    (downloadOne
      { parseV6 := fun _ => none, resolve := fun _ => .timeout,
        sha256hex := fun _ => "ab" } cCall "http://slow.example.com/x.png"
      0 50 120 90).1.status = "blocked:dns resolve timeout" :=
  c3_amended_ssrf_guard.2.2.2
    { parseV6 := fun _ => none, resolve := fun _ => .timeout,
      sha256hex := fun _ => "ab" } cCall "http://slow.example.com/x.png"
    "slow.example.com" 0 50 120 90 (by decide) (by decide) (by decide)
    (by decide) (by decide) (by decide) (by decide) (by decide) (by decide)
    (by decide)

/-! ## JSON (`json` module subset used by the sources)

A strict JSON parser mirroring `json.loads` / `JSONDecoder.raw_decode`:
standard whitespace between tokens, strings with the JSON escapes
(a lone `\uXXXX` surrogate — which Python would keep as a surrogate code
point — is mapped to U+FFFD, since Lean `Char` excludes surrogates),
numbers kept as their raw text, plus the `NaN`/`Infinity` extensions Python
accepts.  Object construction keeps all key/value pairs in order; lookups
take the last binding, matching `dict` construction from duplicate keys. -/

/-- JSON values; numbers keep their source text. -/
inductive JVal where
  | null
  | bool (b : Bool)
  | num (raw : String)
  | str (s : String)
  | arr (items : List JVal)
  | obj (fields : List (String × JVal))

/-- JSON inter-token whitespace. -/
def jsonWs (c : Char) : Bool := c = ' ' || c = '\t' || c = '\n' || c = '\r'

/-- Drop JSON whitespace. -/
def skipWs (l : List Char) : List Char := l.dropWhile jsonWs

/-- Hexadecimal digit value. -/
def hexVal (c : Char) : Option Nat :=
  if '0' ≤ c && c ≤ '9' then some (c.toNat - 48)
  else if 'a' ≤ c && c ≤ 'f' then some (c.toNat - 87)
  else if 'A' ≤ c && c ≤ 'F' then some (c.toNat - 55)
  else none

/-- Four hex digits of a `\u` escape. -/
def parseHex4 : List Char → Option (Nat × List Char)
  | a :: b :: c :: d :: rest =>
    match hexVal a, hexVal b, hexVal c, hexVal d with
    | some x, some y, some z, some w =>
      some (((x * 16 + y) * 16 + z) * 16 + w, rest)
    | _, _, _, _ => none
  | _ => none

/-- Unicode replacement character U+FFFD. -/
def replacementChar : Char := Char.ofNat 0xFFFD

/-- Scalar for a `\u` code unit, folding surrogate pairs; an unpaired
surrogate becomes U+FFFD (see the module comment). -/
def uniEscape (n : Nat) (rest : List Char) : (Char × List Char) :=
  if 0xD800 ≤ n && n ≤ 0xDBFF then
    match rest with
    | '\\' :: 'u' :: r2 =>
      match parseHex4 r2 with
      | some (m, r3) =>
        if 0xDC00 ≤ m && m ≤ 0xDFFF then
          (Char.ofNat (0x10000 + (n - 0xD800) * 0x400 + (m - 0xDC00)), r3)
        else (replacementChar, rest)
      | none => (replacementChar, rest)
    | _ => (replacementChar, rest)
  else if 0xDC00 ≤ n && n ≤ 0xDFFF then (replacementChar, rest)
  else (Char.ofNat n, rest)

/-- String body after the opening quote.  Strict mode: unescaped control
characters are rejected. -/
def parseStrBody : Nat → List Char → List Char → Option (String × List Char)
  | 0, _, _ => none
  | _ + 1, [], _ => none
  | fuel + 1, c :: rest, acc =>
    if c = '"' then some (⟨acc.reverse⟩, rest)
    else if c = '\\' then
      match rest with
      | [] => none
      | e :: r2 =>
        if e = '"' then parseStrBody fuel r2 ('"' :: acc)
        else if e = '\\' then parseStrBody fuel r2 ('\\' :: acc)
        else if e = '/' then parseStrBody fuel r2 ('/' :: acc)
        else if e = 'b' then parseStrBody fuel r2 ('\x08' :: acc)
        else if e = 'f' then parseStrBody fuel r2 ('\x0c' :: acc)
        else if e = 'n' then parseStrBody fuel r2 ('\n' :: acc)
        else if e = 'r' then parseStrBody fuel r2 ('\r' :: acc)
        else if e = 't' then parseStrBody fuel r2 ('\t' :: acc)
        else if e = 'u' then
          match parseHex4 r2 with
          | some (n, r3) =>
            match uniEscape n r3 with
            | (ch, r4) => parseStrBody fuel r4 (ch :: acc)
          | none => none
        else none
    else if c.toNat < 0x20 then none
    else parseStrBody fuel rest (c :: acc)

/-- JSON number token: `-?(0|[1-9][0-9]*)(\.[0-9]+)?([eE][+-]?[0-9]+)?`,
returned as raw text. -/
def parseNum (l : List Char) : Option (String × List Char) :=
  let (sign, l1) := match l with
    | '-' :: r => (['-'], r)
    | _ => ([], l)
  match l1 with
  | [] => none
  | c :: _ =>
    if !c.isDigit then none
    else
      let intPart := l1.takeWhile Char.isDigit
      if intPart.length > 1 && c = '0' then none
      else
        let l2 := l1.drop intPart.length
        let (frac, l3) :=
          match l2 with
          | '.' :: r =>
            let ds := r.takeWhile Char.isDigit
            if ds.isEmpty then ([], l2) else ('.' :: ds, r.drop ds.length)
          | _ => ([], l2)
        if frac.isEmpty && l2 ≠ l3 then none
        else
          let (ex, l4) :=
            match l3 with
            | e :: r =>
              if e = 'e' || e = 'E' then
                let (sgn, r2) := match r with
                  | '+' :: r2 => (['+'], r2)
                  | '-' :: r2 => (['-'], r2)
                  | _ => ([], r)
                let ds := r2.takeWhile Char.isDigit
                if ds.isEmpty then ([], l3)
                else (e :: (sgn ++ ds), r2.drop ds.length)
              else ([], l3)
            | _ => ([], l3)
          some (⟨sign ++ intPart ++ frac ++ ex⟩, l4)

mutual

/-- Parse one JSON value starting exactly at the head of the input. -/
def parseValue : Nat → List Char → Option (JVal × List Char)
  | 0, _ => none
  | fuel + 1, l =>
    match l with
    | [] => none
    | '{' :: rest => parseObjItems fuel (skipWs rest) []
    | '[' :: rest => parseArrItems fuel (skipWs rest) []
    | '"' :: rest =>
      match parseStrBody (rest.length + 1) rest [] with
      | some (s, r2) => some (.str s, r2)
      | none => none
    | 't' :: 'r' :: 'u' :: 'e' :: rest => some (.bool true, rest)
    | 'f' :: 'a' :: 'l' :: 's' :: 'e' :: rest => some (.bool false, rest)
    | 'n' :: 'u' :: 'l' :: 'l' :: rest => some (.null, rest)
    | 'N' :: 'a' :: 'N' :: rest => some (.num "nan", rest)
    | 'I' :: 'n' :: 'f' :: 'i' :: 'n' :: 'i' :: 't' :: 'y' :: rest =>
      some (.num "inf", rest)
    | '-' :: 'I' :: 'n' :: 'f' :: 'i' :: 'n' :: 'i' :: 't' :: 'y' :: rest =>
      some (.num "-inf", rest)
    | _ =>
      match parseNum l with
      | some (s, rest) => some (.num s, rest)
      | none => none

/-- Array items after `[` (whitespace already skipped). -/
def parseArrItems : Nat → List Char → List JVal → Option (JVal × List Char)
  | 0, _, _ => none
  | _ + 1, [], _ => none
  | fuel + 1, c :: rest, acc =>
    if c = ']' && acc.isEmpty then some (.arr [], rest)
    else
      match parseValue fuel (c :: rest) with
      | none => none
      | some (v, r2) =>
        match skipWs r2 with
        | ',' :: r3 => parseArrItems fuel (skipWs r3) (v :: acc)
        | ']' :: r3 => some (.arr (v :: acc).reverse, r3)
        | _ => none

/-- Object items after `{` (whitespace already skipped). -/
def parseObjItems : Nat → List Char →
    List (String × JVal) → Option (JVal × List Char)
  | 0, _, _ => none
  | _ + 1, [], _ => none
  | fuel + 1, c :: rest, acc =>
    if c = '}' && acc.isEmpty then some (.obj [], rest)
    else if c = '"' then
      match parseStrBody (rest.length + 1) rest [] with
      | none => none
      | some (k, r2) =>
        match skipWs r2 with
        | ':' :: r3 =>
          match parseValue fuel (skipWs r3) with
          | none => none
          | some (v, r4) =>
            match skipWs r4 with
            | ',' :: r5 => parseObjItems fuel (skipWs r5) ((k, v) :: acc)
            | '}' :: r5 => some (.obj ((k, v) :: acc).reverse, r5)
            | _ => none
        | _ => none
    else none

end

/-- `JSONDecoder.raw_decode` at position 0 (no leading whitespace skip). -/
def raw_decode (l : List Char) : Option (JVal × List Char) :=
  parseValue (l.length + 1) l

/-- `json.loads`: surrounding whitespace allowed, input must be one value. -/
def json_loads (s : String) : Option JVal :=
  let l := skipWs s.data
  match parseValue (l.length + 1) l with
  | some (v, rest) => if (skipWs rest).isEmpty then some v else none
  | none => none

/-- `dict` lookup built by `json.loads` (last duplicate key wins). -/
def objGet (fields : List (String × JVal)) (k : String) : Option JVal :=
  (fields.reverse.find? (fun p => p.1 == k)).map (·.2)

/-! ## `util/jsonish.py` -/

/-- Scan of `extract_first_json_object`: try `raw_decode` at every `{`
occurrence from the left; the first position yielding a JSON object wins. -/
def firstJsonObjGo : List Char → Option (List (String × JVal))
  | [] => none
  | c :: rest =>
    if c = '{' then
      match raw_decode (c :: rest) with
      | some (.obj fields, _) => some fields
      | _ => firstJsonObjGo rest
    else firstJsonObjGo rest

/-- Embedding of `jsonish.extract_first_json_object`. -/
def extract_first_json_object (text : String) : Option (List (String × JVal)) :=
  firstJsonObjGo text.data

/-- First index `≥ start` at which `pat` occurs in `l` (Python
`str.find(pat, start)`). -/
def findSubFrom (l pat : List Char) (start : Nat) : Option Nat :=
  (List.range (l.length + 1)).find? (fun i =>
    decide (start ≤ i) && pat.isPrefixOf (l.drop i))

/-- First index `≥ start` of character `c` (Python `str.find(c, start)`). -/
def findCharFrom (l : List Char) (c : Char) (start : Nat) : Option Nat :=
  findSubFrom l [c] start

/-- The closing-quote scan of `extract_json_string_value`: position of the
first unescaped `"` at or after `pos`. -/
def scanCloseQuote : List Char → Nat → Bool → Option Nat
  | [], _, _ => none
  | ch :: rest, pos, esc =>
    if esc then scanCloseQuote rest (pos + 1) false
    else if ch = '\\' then scanCloseQuote rest (pos + 1) true
    else if ch = '"' then some pos
    else scanCloseQuote rest (pos + 1) false

/-- Embedding of `jsonish.extract_json_string_value`. -/
def extract_json_string_value (text key : String) : Option String :=
  let l := text.data
  match findSubFrom l ('"' :: (key.data ++ ['"'])) 0 with
  | none => none
  | some i =>
    match findCharFrom l ':' i with
    | none => none
    | some j =>
      match findCharFrom l '"' j with
      | none => none
      | some q =>
        match scanCloseQuote (l.drop (q + 1)) (q + 1) false with
        | none => none
        | some e =>
          let lit : String := ⟨(l.drop q).take (e + 1 - q)⟩
          match json_loads lit with
          | some (.str v) => some v
          | _ => none

/-- Fence-opening strip of `coerce_summary_text`:
`re.sub(r"^` ``[a-zA-Z0-9_-]*\s*", "", s)` for `s` starting with a fence
(three backticks, an info-string run, trailing whitespace). -/
def stripFenceOpen (s : String) : String :=
  if pyStartsWith s "```" then
    ⟨((s.data.drop 3).dropWhile (fun c =>
        c.isAlpha || c.isDigit || c = '_' || c = '-')).dropWhile pyIsSpace⟩
  else s

/-- Match of the closing-fence pattern `\s*` + three backticks + `\s*$`
anchored at the head of `u`. -/
def fenceCloseMatch (u : List Char) : Bool :=
  let v := u.dropWhile pyIsSpace
  "```".data.isPrefixOf v && ((v.drop 3).all pyIsSpace)

/-- Leftmost start of a closing-fence match. -/
def fenceCloseFind : List Char → Option Nat
  | [] => none
  | c :: rest =>
    if fenceCloseMatch (c :: rest) then some 0
    else (fenceCloseFind rest).map (· + 1)

/-- Fence-closing strip of `coerce_summary_text`:
`re.sub(r"\s*` ``\s*$", "", s)`. -/
def stripFenceClose (s : String) : String :=
  match fenceCloseFind s.data with
  | some i => ⟨s.data.take i⟩
  | none => s

theorem stripL_length_le (l : List Char) : (stripL l).length ≤ l.length := by
  unfold stripL rstripL lstripL
  calc ((l.dropWhile pyIsSpace).reverse.dropWhile pyIsSpace).reverse.length
      = ((l.dropWhile pyIsSpace).reverse.dropWhile pyIsSpace).length := by
        rw [List.length_reverse]
    _ ≤ (l.dropWhile pyIsSpace).reverse.length :=
        (List.dropWhile_sublist _).length_le
    _ = (l.dropWhile pyIsSpace).length := by rw [List.length_reverse]
    _ ≤ l.length := (List.dropWhile_sublist _).length_le

theorem pyStrip_length_le (s : String) :
    (pyStrip s).data.length ≤ s.data.length := stripL_length_le s.data

theorem stripFenceOpen_length (s : String) (h : pyStartsWith s "```" = true) :
    (stripFenceOpen s).data.length + 3 ≤ s.data.length := by
  unfold stripFenceOpen
  rw [if_pos h]
  have h3 : 3 ≤ s.data.length := by
    have := (List.isPrefixOf_iff_prefix.mp h).length_le
    simpa using this
  show (((s.data.drop 3).dropWhile (fun c =>
      c.isAlpha || c.isDigit || c = '_' || c = '-')).dropWhile
        pyIsSpace).length + 3 ≤ s.data.length
  have l1 : ((s.data.drop 3).dropWhile (fun c =>
      c.isAlpha || c.isDigit || c = '_' || c = '-')).length ≤
      (s.data.drop 3).length := (List.dropWhile_sublist _).length_le
  have l2 : (((s.data.drop 3).dropWhile (fun c =>
      c.isAlpha || c.isDigit || c = '_' || c = '-')).dropWhile
        pyIsSpace).length ≤ ((s.data.drop 3).dropWhile (fun c =>
      c.isAlpha || c.isDigit || c = '_' || c = '-')).length :=
    (List.dropWhile_sublist _).length_le
  have l3 : (s.data.drop 3).length = s.data.length - 3 := by
    rw [List.length_drop]
  omega

theorem stripFenceClose_length_le (s : String) :
    (stripFenceClose s).data.length ≤ s.data.length := by
  unfold stripFenceClose
  cases h : fenceCloseFind s.data with
  | none => exact le_refl _
  | some i =>
    show (s.data.take i).length ≤ s.data.length
    rw [List.length_take]
    omega

/-- Length bound on the recursion argument of `coerce_summary_text`. -/
theorem fence_strip_shrinks (s : String) (h : pyStartsWith s "```" = true) :
    (pyStrip (stripFenceClose (stripFenceOpen s))).data.length + 3 ≤
      s.data.length := by
  have h1 := pyStrip_length_le (stripFenceClose (stripFenceOpen s))
  have h2 := stripFenceClose_length_le (stripFenceOpen s)
  have h3 := stripFenceOpen_length s h
  omega

/-- Embedding of `jsonish.coerce_summary_text`: JSON-object scan, then the
targeted `"summary"` string-literal extractor, then the code-fence strip
with a guarded recursion, then raw passthrough. -/
def coerce_summary_text (text : String) : String :=
  let s := pyStrip text
  if s = "" then ""
  else
    let fromObj : Option String :=
      match extract_first_json_object s with
      | some fields =>
        match objGet fields "summary" with
        | some (.str v) => if pyStrip v ≠ "" then some (pyStrip v) else none
        | _ => none
      | none => none
    match fromObj with
    | some r => r
    | none =>
      match extract_json_string_value s "summary" with
      | some v2 =>
        if pyStrip v2 ≠ "" then pyStrip v2
        else if hf : pyStartsWith s "```" = true then
          let s2 := pyStrip (stripFenceClose (stripFenceOpen s))
          if s2 ≠ "" && s2 ≠ s then coerce_summary_text s2 else s
        else s
      | none =>
        if hf : pyStartsWith s "```" = true then
          let s2 := pyStrip (stripFenceClose (stripFenceOpen s))
          if s2 ≠ "" && s2 ≠ s then coerce_summary_text s2 else s
        else s
termination_by text.data.length
decreasing_by
  all_goals
    have hle : (pyStrip text).data.length ≤ text.data.length :=
      pyStrip_length_le text
  all_goals
    have hsh := fence_strip_shrinks (pyStrip text) hf
  all_goals omega

/-- Fuel-bounded mirror of `coerce_summary_text`: `none` means the fuel ran
out before the recursion finished. -/
def coerceFuel : Nat → String → Option String
  | 0, _ => none
  | fuel + 1, text =>
    let s := pyStrip text
    if s = "" then some ""
    else
      let fromObj : Option String :=
        match extract_first_json_object s with
        | some fields =>
          match objGet fields "summary" with
          | some (.str v) => if pyStrip v ≠ "" then some (pyStrip v) else none
          | _ => none
        | none => none
      match fromObj with
      | some r => some r
      | none =>
        match extract_json_string_value s "summary" with
        | some v2 =>
          if pyStrip v2 ≠ "" then some (pyStrip v2)
          else if pyStartsWith s "```" = true then
            let s2 := pyStrip (stripFenceClose (stripFenceOpen s))
            if s2 ≠ "" && s2 ≠ s then coerceFuel fuel s2 else some s
          else some s
        | none =>
          if pyStartsWith s "```" = true then
            let s2 := pyStrip (stripFenceClose (stripFenceOpen s))
            if s2 ≠ "" && s2 ≠ s then coerceFuel fuel s2 else some s
          else some s

theorem coerceFuel_spec :
    ∀ n text, text.data.length < n →
      coerceFuel n text = some (coerce_summary_text text) := by
  intro n
  induction n using Nat.strong_induction_on with
  | _ n ih =>
    match n with
    | 0 => intro text hlen; omega
    | m + 1 =>
      intro text hlen
      rw [coerceFuel, coerce_summary_text]
      dsimp only []
      by_cases h0 : pyStrip text = ""
      · rw [if_pos h0, if_pos h0]
      · rw [if_neg h0, if_neg h0]
        cases hobj : (match extract_first_json_object (pyStrip text) with
          | some fields =>
            match objGet fields "summary" with
            | some (.str v) =>
              if pyStrip v ≠ "" then some (pyStrip v) else none
            | _ => none
          | none => (none : Option String)) with
        | some r => rfl
        | none =>
          cases hlit : extract_json_string_value (pyStrip text) "summary" with
          | some v2 =>
            dsimp only []
            by_cases hv2 : pyStrip v2 ≠ ""
            · rw [if_pos hv2, if_pos hv2]
            · rw [if_neg hv2, if_neg hv2]
              by_cases hf : pyStartsWith (pyStrip text) "```" = true
              · rw [if_pos hf, dif_pos hf]
                by_cases hg : (pyStrip (stripFenceClose (stripFenceOpen
                    (pyStrip text))) ≠ "" &&
                    pyStrip (stripFenceClose (stripFenceOpen
                    (pyStrip text))) ≠ pyStrip text) = true
                · rw [if_pos hg, if_pos hg]
                  apply ih m (by omega)
                  have hs := fence_strip_shrinks (pyStrip text) hf
                  have hl := pyStrip_length_le text
                  omega
                · rw [if_neg hg, if_neg hg]
              · rw [if_neg hf, dif_neg hf]
          | none =>
            dsimp only []
            by_cases hf : pyStartsWith (pyStrip text) "```" = true
            · rw [if_pos hf, dif_pos hf]
              by_cases hg : (pyStrip (stripFenceClose (stripFenceOpen
                  (pyStrip text))) ≠ "" &&
                  pyStrip (stripFenceClose (stripFenceOpen
                  (pyStrip text))) ≠ pyStrip text) = true
              · rw [if_pos hg, if_pos hg]
                apply ih m (by omega)
                have hs := fence_strip_shrinks (pyStrip text) hf
                have hl := pyStrip_length_le text
                omega
              · rw [if_neg hg, if_neg hg]
            · rw [if_neg hf, dif_neg hf]

/-- C10: `coerce_summary_text` terminates on every input.  First part: the
fuel-bounded mirror never runs out when given `len(text) + 1` fuel, i.e.
the recursion depth is bounded by the input length and every input returns
a string.  Second part: the only recursive call — made after stripping a
leading code fence — receives a string strictly shorter than (hence
different from) its input. -/
theorem c10_coerce_summary_text_total :
    (∀ text : String,
      coerceFuel (text.data.length + 1) text =
        some (coerce_summary_text text)) ∧
    (∀ s : String, pyStartsWith (pyStrip s) "```" = true →
      (pyStrip (stripFenceClose (stripFenceOpen (pyStrip s)))).data.length <
        (pyStrip s).data.length ∧
      pyStrip (stripFenceClose (stripFenceOpen (pyStrip s))) ≠ pyStrip s) := by
  constructor
  · intro text
    exact coerceFuel_spec (text.data.length + 1) text (by omega)
  · intro s hf
    have hs := fence_strip_shrinks (pyStrip s) hf
    refine ⟨by omega, ?_⟩
    intro heq
    have := congrArg (fun t => t.data.length) heq
    simp only [] at this
    omega

/-- Witness for C10 at a fenced input. -/
theorem c10_witness :
    coerceFuel (("```json\nhello world```".data.length + 1))
        "```json\nhello world```" =
      some (coerce_summary_text "```json\nhello world```") ∧
    pyStartsWith (pyStrip "```json\nhello world```") "```" = true ∧
    (pyStrip (stripFenceClose (stripFenceOpen
        (pyStrip "```json\nhello world```")))).data.length <
      (pyStrip "```json\nhello world```").data.length :=
  ⟨c10_coerce_summary_text_total.1 "```json\nhello world```", by decide,
   (c10_coerce_summary_text_total.2 "```json\nhello world```" (by decide)).1⟩

/-! ## Long-summarize orchestrator (`llm/long_summarize.py`)

String machinery first: bullet extraction, label normalisation, section
enforcement; then paragraph chunking and `summarize_email_long_aware`
itself.  The LLM provider is an environment mapping the call index to its
reply; the trace records the bodies sent and the progress fractions
reported (exact rationals standing for the Python floats `i/total_units`).
-/

/-- Python `"sep".join(items)`. -/
def pyJoin (sep : String) : List String → String
  | [] => ""
  | [x] => x
  | x :: rest => x ++ sep ++ pyJoin sep rest

/-- Python `str.endswith`. -/
def pyEndsWith (s suf : String) : Bool := suf.data.isSuffixOf s.data

/-- Remove ASCII spaces (Python `str.replace(" ", "")`). -/
def pyRemoveSpaces (s : String) : String := ⟨s.data.filter (· ≠ ' ')⟩

/-- Character class of the clumped-bullet lookahead:
`[A-Za-z가-힣0-9\[]`. -/
def bulletClassChar (c : Char) : Bool :=
  ('A' ≤ c && c ≤ 'Z') || ('a' ≤ c && c ≤ 'z') || ('0' ≤ c && c ≤ '9') ||
  c = '[' || ('가' ≤ c && c ≤ '힣')

/-- Left-to-right scan of `re.sub(r"\s+-\s+(?=[A-Za-z가-힣0-9\[])",
"\n- ", s)`: whitespace runs are never partially matched (backtracking
cannot help, as the lookahead class contains no whitespace and `-` is not
whitespace), so a match is a maximal whitespace run, `-`, a maximal
whitespace run, and a class character after it. -/
def bulletSplitGo : List Char → List Char
  | [] => []
  | c :: rest =>
    if pyIsSpace c then
      let w1tail := rest.takeWhile pyIsSpace
      match hr : rest.drop w1tail.length with
      | '-' :: r2 =>
        let w2 := r2.takeWhile pyIsSpace
        let r3 := r2.drop w2.length
        if w2.length > 0 && bulletClassChar (r3.headD ' ') then
          '\n' :: '-' :: ' ' :: bulletSplitGo r3
        else c :: bulletSplitGo rest
      | _ => c :: bulletSplitGo rest
    else c :: bulletSplitGo rest
termination_by l => l.length
decreasing_by
  · have h1 : (rest.takeWhile pyIsSpace).length ≤ rest.length := by
      simpa using (List.takeWhile_sublist (l := rest) pyIsSpace).length_le
    have h2 : (rest.drop (rest.takeWhile pyIsSpace).length).length =
        rest.length - (rest.takeWhile pyIsSpace).length :=
      List.length_drop _ _
    have h3 : r2.length + 1 =
        (rest.drop (rest.takeWhile pyIsSpace).length).length := by
      rw [hr]; rfl
    have h4 : (r2.drop (r2.takeWhile pyIsSpace).length).length =
        r2.length - (r2.takeWhile pyIsSpace).length := List.length_drop _ _
    have h5 : (r2.takeWhile pyIsSpace).length ≤ r2.length := by
      simpa using (List.takeWhile_sublist (l := r2) pyIsSpace).length_le
    simp only [List.length_cons]
    omega
  all_goals simp only [List.length_cons]
  all_goals omega

/-- Embedding of `re.sub(r"^#{1,6}\s*", "", line)`. -/
def stripHeaderHashes (line : String) : String :=
  let hashes := (line.data.takeWhile (· = '#')).take 6
  if hashes.length = 0 then line
  else ⟨(line.data.drop hashes.length).dropWhile pyIsSpace⟩

/-- Class of `re.sub(r"^([\s\-\*#]+)", "", line)`. -/
def bulletLeadChar (c : Char) : Bool :=
  pyIsSpace c || c = '-' || c = '*' || c = '#'

/-- Embedding of `re.sub(r"^([\s\-\*#]+)", "", line)`. -/
def stripLeadBullet (line : String) : String :=
  ⟨line.data.dropWhile bulletLeadChar⟩

/-- Class of the trailing strip `re.sub(r"[\"'\],]+$", "", s)`. -/
def trailJunkChar (c : Char) : Bool :=
  c = '"' || c = '\'' || c = ']' || c = ','

/-- Embedding of `re.sub(r"[\"'\],]+$", "", s)`. -/
def stripTrailJunk (s : String) : String :=
  ⟨(s.data.reverse.dropWhile trailJunkChar).reverse⟩

/-- Embedding of `re.sub(r"^[-*•·]\s*", "", t)`. -/
def stripOneBullet (t : String) : String :=
  match t.data with
  | c :: rest =>
    if c = '-' || c = '*' || c = '•' || c = '·' then
      ⟨rest.dropWhile pyIsSpace⟩
    else t
  | [] => t

/-- Minimal `repr`-style escaping for Python `str()` of nested JSON
containers (quotes, backslashes and the common control escapes; exotic
control characters are left as-is). -/
def pyReprEscape (s : String) : String :=
  ⟨s.data.flatMap (fun c =>
    if c = '\\' then ['\\', '\\']
    else if c = '\'' then ['\\', '\'']
    else if c = '\n' then ['\\', 'n']
    else if c = '\r' then ['\\', 'r']
    else if c = '\t' then ['\\', 't']
    else [c])⟩

mutual

/-- Python `str(x)` on a decoded JSON value (top level). -/
def pyStrOfJVal : JVal → String
  | .null => "None"
  | .bool b => if b then "True" else "False"
  | .num raw => raw
  | .str s => s
  | .arr items => "[" ++ pyJoin ", " (pyReprList items) ++ "]"
  | .obj fields => "\x7b" ++ pyJoin ", " (pyReprFields fields) ++ "\x7d"

/-- Python `repr(x)` on a decoded JSON value (inside containers). -/
def pyReprOfJVal : JVal → String
  | .null => "None"
  | .bool b => if b then "True" else "False"
  | .num raw => raw
  | .str s => "'" ++ pyReprEscape s ++ "'"
  | .arr items => "[" ++ pyJoin ", " (pyReprList items) ++ "]"
  | .obj fields => "\x7b" ++ pyJoin ", " (pyReprFields fields) ++ "\x7d"

def pyReprList : List JVal → List String
  | [] => []
  | v :: rest => pyReprOfJVal v :: pyReprList rest

def pyReprFields : List (String × JVal) → List String
  | [] => []
  | (k, v) :: rest =>
    ("'" ++ pyReprEscape k ++ "': " ++ pyReprOfJVal v) :: pyReprFields rest

end

/-- Embedding of `long_summarize._extract_bullets`. -/
def extract_bullets (summary : String) : List String :=
  let s := pyStrip summary
  if s = "" then []
  else
    let jsonBranch : Option (List String) :=
      if pyStartsWith s "[" && pyEndsWith s "]" then
        match json_loads s with
        | some (.arr items) =>
          some ((items.map (fun x => pyStrip (pyStrOfJVal x))).filter
            (· ≠ ""))
        | _ => none
      else none
    match jsonBranch with
    | some out => out
    | none =>
      let s1 := pyRemoveDoubleStar s
      let s2 := pyReplaceChar (pyReplaceChar s1 '·' ['-']) '•' ['-']
      let s3 : String := ⟨bulletSplitGo s2.data⟩
      let out := (pySplitlines s3).foldl (fun out raw_line =>
        let line := pyStrip raw_line
        if line = "" then out
        else if pyStartsWith line "###" then
          let header := pyStrip (stripHeaderHashes line)
          if header ≠ "" then out ++ [header] else out
        else
          let c1 := pyStrip (stripLeadBullet line)
          let c2 := pyStrip (stripTrailJunk c1)
          if c2 ≠ "" && pyLen c2 > 1 then out ++ [c2] else out) []
      if out ≠ [] then out
      else if pyContains s3 "; " then
        ((s3.splitOn "; ").map pyStrip).filter (· ≠ "")
      else []

/-- Embedding of `long_summarize._dedupe_keep_order`. -/
def dedupe_keep_order (items : List String) : List String :=
  go items []
where
  go : List String → List String → List String
    | [], _ => []
    | x :: rest, seen =>
      let k := pyStrip x
      if k = "" then go rest seen
      else
        let lk := pyLower k
        if seen.contains lk then go rest seen
        else k :: go rest (lk :: seen)

/-- Non-overlapping count of `"\n\n"` (Python `s.count("\n\n")`). -/
def countDoubleNL : List Char → Nat
  | '\n' :: '\n' :: rest => 1 + countDoubleNL rest
  | _ :: rest => countDoubleNL rest
  | [] => 0

/-- Embedding of `long_summarize._is_structured`. -/
def is_structured (text : String) : Bool :=
  let s := pyStrip text
  pyContains s "###" || countDoubleNL s.data ≥ 2

/-- Labels rewritten to `### 핵심 요약`. -/
def coreLabels : List String := ["핵심전략결론", "핵심결론", "핵심요약", "bluf"]

/-- Labels rewritten to `### 상세 요약`. -/
def detailLabels : List String :=
  ["주요소식", "주제별분석", "심층구조화", "구조화", "상세요약"]

/-- Embedding of `long_summarize._normalize_summary_section_labels`. -/
def normalize_summary_section_labels (text : String) : String :=
  let s := pyStrip text
  if s = "" then s
  else
    let lines := (pySplitlines s).map (fun raw_line =>
      let line := pyStrip raw_line
      if line = "" then raw_line
      else
        let clean := pyStrip (stripHeaderHashes line)
        let clean2 := pyStrip (pyStripChars clean ['[', ']'])
        let normalized := pyRemoveSpaces (pyLower clean2)
        if coreLabels.contains normalized then "### 핵심 요약"
        else if detailLabels.contains normalized then "### 상세 요약"
        else raw_line)
    pyStrip (pyJoin "\n" lines)

/-- Header labels skipped when rebuilding the two sections. -/
def skipHeaders : List String :=
  ["핵심요약", "상세요약", "핵심결론", "핵심전략결론", "주요소식",
   "주제별분석", "심층구조화", "구조화"]

/-- Embedding of `long_summarize._ensure_core_detail_sections`. -/
def ensure_core_detail_sections (text : String) : String :=
  let s := normalize_summary_section_labels text
  if s = "" then s
  else
    let normalized := pyRemoveSpaces (pyLower s)
    let has_core := pyContains normalized "핵심요약"
    let has_detail := pyContains normalized "상세요약"
    if has_core && has_detail then s
    else
      let cleaned1 := (extract_bullets s).foldl (fun acc b =>
        let t := pyStrip b
        if t = "" then acc
        else
          let n := pyStrip (pyStripChars (pyRemoveSpaces (pyLower t))
            ['[', ']'])
          if skipHeaders.contains n then acc else acc ++ [t]) []
      let cleaned2 :=
        if cleaned1 = [] then
          (pySplitlines s).foldl (fun acc raw =>
            let t1 := pyStrip (stripHeaderHashes raw)
            let t2 := pyStrip (stripOneBullet t1)
            if t2 = "" then acc
            else
              let n := pyStrip (pyStripChars (pyRemoveSpaces (pyLower t2))
                ['[', ']'])
              if skipHeaders.contains n then acc else acc ++ [t2]) []
        else cleaned1
      let cleaned := dedupe_keep_order cleaned2
      if cleaned = [] then
        "### 핵심 요약\n- (요약 없음)\n\n### 상세 요약\n- (요약 없음)"
      else
        let core := cleaned.take 3
        let detail0 := (cleaned.drop 3).take 7
        let detail :=
          if detail0 = [] then cleaned.take (min 7 cleaned.length)
          else detail0
        let core_text := pyJoin "\n" (core.map (fun x => "- " ++ x))
        let detail_text := pyJoin "\n" (detail.map (fun x => "- " ++ x))
        pyStrip ("### 핵심 요약\n" ++ core_text ++ "\n\n### 상세 요약\n" ++
          detail_text)

/-! ### Chunking -/

/-- Replace `\r\n` by `\n` (Python `s.replace("\r\n", "\n")`). -/
def replaceCRLF : List Char → List Char
  | '\r' :: '\n' :: rest => '\n' :: replaceCRLF rest
  | c :: rest => c :: replaceCRLF rest
  | [] => []

/-- Embedding of `long_summarize._split_paragraphs`. -/
def split_paragraphs (text : String) : List String :=
  let s := pyStrip text
  if s = "" then []
  else
    let s2 := pyReplaceChar ⟨replaceCRLF s.data⟩ '\r' ['\n']
    let r := (pySplitChar s2 '\n').foldl
      (fun (st : List String × List String) line =>
        if pyStrip line = "" then
          if st.2 ≠ [] then (st.1 ++ [pyStrip (pyJoin "\n" st.2)], [])
          else st
        else (st.1, st.2 ++ [line])) ([], [])
    let paras := if r.2 ≠ [] then r.1 ++ [pyStrip (pyJoin "\n" r.2)] else r.1
    paras.filter (· ≠ "")

/-- Has the chunk list reached `max_chunks`? -/
def atCap (mc : Option Nat) (chunks : List String) : Bool :=
  match mc with
  | none => false
  | some m => chunks.length ≥ m

/-- Hard split of an oversized paragraph: `p[i:i+chunk_chars].strip()` for
`i in range(0, len(p), chunk_chars)`, stopping at the chunk cap.  The
`max cc 1` stride only guards Lean-side termination; Python raises for a
zero stride and the callers always pass a positive `chunk_chars`. -/
def hardSplitGo (cc : Nat) (mc : Option Nat) :
    List Char → List String → List String × Bool
  | [], chunks => (chunks, false)
  | p, chunks =>
    let piece := pyStrip ⟨p.take cc⟩
    let chunks2 := chunks ++ [piece]
    if atCap mc chunks2 then (chunks2, true)
    else
      let rest := p.drop (max cc 1)
      if rest.isEmpty then (chunks2, false)
      else hardSplitGo cc mc rest chunks2
termination_by p _ => p.length
decreasing_by
  have h1 : (p.drop (max cc 1)).length = p.length - max cc 1 :=
    List.length_drop _ _
  have h2 : 1 ≤ max cc 1 := le_max_right _ _
  have h3 : ¬(List.drop (max cc 1) p).isEmpty = true := by assumption
  have h4 : (List.drop (max cc 1) p) ≠ [] := by
    intro hnil
    exact h3 (by simp [hnil])
  have h5 := List.length_pos.mpr h4
  omega

/-- The paragraph-packing loop of `_chunk_text` (returns the chunk list and
the unflushed current group; after any `break` the current group is empty,
matching the Python control flow). -/
def chunkLoopGo (cc : Nat) (mc : Option Nat) :
    List String → List String → List String → Nat → List String × List String
  | [], chunks, cur, _ => (chunks, cur)
  | p :: rest, chunks, cur, cur_len =>
    let plen := pyLen p
    if plen > cc * 2 then
      let flushed :=
        if cur ≠ [] then (chunks ++ [pyStrip (pyJoin "\n\n" cur)], true)
        else (chunks, false)
      if flushed.2 && atCap mc flushed.1 then (flushed.1, [])
      else
        let hs := hardSplitGo cc mc p.data flushed.1
        if hs.2 then (hs.1, [])
        else if atCap mc hs.1 then (hs.1, [])
        else chunkLoopGo cc mc rest hs.1 [] 0
    else
      if cur_len + plen + (if cur ≠ [] then 2 else 0) > cc && cur ≠ [] then
        let chunks2 := chunks ++ [pyStrip (pyJoin "\n\n" cur)]
        if atCap mc chunks2 then (chunks2, [])
        else
          chunkLoopGo cc mc rest chunks2 [p] (0 + plen + 0)
      else
        chunkLoopGo cc mc rest chunks (cur ++ [p])
          (cur_len + plen + (if cur_len ≠ 0 then 2 else 0))

/-- Embedding of `long_summarize._chunk_text`. -/
def chunk_text (text : String) (chunk_chars : Nat) (max_chunks : Option Nat) :
    List String :=
  let s := pyStrip text
  if s = "" then []
  else
    let paras := split_paragraphs s
    if paras = [] then [pyTake s chunk_chars]
    else
      let r := chunkLoopGo chunk_chars max_chunks paras [] [] 0
      let chunksF :=
        if r.2 ≠ [] &&
            (match max_chunks with
             | none => true
             | some m => r.1.length < m) then
          r.1 ++ [pyStrip (pyJoin "\n\n" r.2)]
        else r.1
      chunksF.filter (· ≠ "")

/-! ### The orchestrator -/

/-- The `LlmResult` dataclass of `llm/base.py`. -/
structure LlmResult where
  summary : String
  tags : List String
  backlinks : List String
  personal : Bool
  deriving DecidableEq

/-- The `LongSummarizeConfig` dataclass with its defaults. -/
structure LongSummarizeConfig where
  chunk_if_body_chars_over : Nat := 4500
  chunk_chars : Nat := 2400
  max_chunks : Option Nat := none
  max_bullets : Nat := 15
  part_bullets : Nat := 5
  max_tags : Nat := 10
  max_backlinks : Nat := 10
  deriving DecidableEq

/-- The provider as an environment: its reported `tier` and the reply to
the `k`-th `summarize` call of this invocation. -/
structure ProviderM where
  tier : String
  responses : Nat → LlmResult

/-- Observable outcome of `summarize_email_long_aware`: the returned
result, the bodies passed to `provider.summarize` in call order, and the
fractions passed to `on_progress` in order. -/
structure SummarizeTrace where
  result : LlmResult
  callBodies : List String
  progress : List ℚ
  deriving DecidableEq

/-- Tier-aware override of the configuration (`cloud` → 12000/10000,
`standard` → 6000/5000, applied only when `chunk_chars ≤ 2400`). -/
def tier_adjusted_cfg (tier : String) (cfg : LongSummarizeConfig) :
    LongSummarizeConfig :=
  if tier == "cloud" && cfg.chunk_chars ≤ 2400 then
    { cfg with chunk_if_body_chars_over := 12000, chunk_chars := 10000 }
  else if tier == "standard" && cfg.chunk_chars ≤ 2400 then
    { cfg with chunk_if_body_chars_over := 6000, chunk_chars := 5000 }
  else cfg

/-- `[User Profile]` block (roles list, interests) used in the prompts. -/
def profileInfo (user_profile : Option (List String × String)) : String :=
  match user_profile with
  | none => ""
  | some (roles, interests) =>
    "\n[User Profile]\n- Role: " ++ pyJoin ", " roles ++ "\n- Interests: " ++
      interests ++ "\n"

/-- Accumulator of the map loop. -/
structure MapState where
  bodies : List String
  progress : List ℚ
  detailed_parts : List String
  all_bullets : List String
  tags : List String
  backlinks : List String
  personal : Bool

/-- Body of the `k`-th map call: `[Part i/N]\n` + chunk. -/
def partBody (i n : Nat) (ch : String) : String :=
  "[Part " ++ toString i ++ "/" ++ toString n ++ "]\n" ++ ch

/-- The map loop over the chunks (`i` is the 1-based chunk index; the call
index equals `i - 1` because the map calls are the first calls made). -/
def mapChunks (P : ProviderM) (pb n total_units : Nat) :
    List String → Nat → MapState → MapState
  | [], _, st => st
  | ch :: rest, i, st =>
    let res := P.responses (i - 1)
    let part_bullets := extract_bullets res.summary
    let short := (dedupe_keep_order part_bullets).take (max 1 pb)
    let lines := pyStrip (pyJoin "\n" ((short.filter (· ≠ "")).map
      (fun x => "- " ++ x)))
    let st2 : MapState :=
      { bodies := st.bodies ++ [partBody i n ch]
        progress := st.progress ++ [(i : ℚ) / (total_units : ℚ)]
        detailed_parts :=
          if short ≠ [] && lines ≠ "" then st.detailed_parts ++ [lines]
          else st.detailed_parts
        all_bullets := st.all_bullets ++ part_bullets
        tags := st.tags ++ res.tags
        backlinks := st.backlinks ++ res.backlinks
        personal := st.personal || res.personal }
    mapChunks P pb n total_units rest (i + 1) st2

/-- Per-tier system role of the synthesis prompt. -/
def synthSystemRole (tier : String) : String :=
  if tier == "fast" then "뉴스레터를 요약하는 어시스턴트"
  else if tier == "cloud" then "전문적인 전략 분석가 및 수석 에디터"
  else "뉴스레터를 요약하는 전문 에디터"

/-- Per-tier guidelines of the synthesis prompt. -/
def synthGuidelines (tier : String) : String :=
  if tier == "fast" then
    "1. 형식 고정: 반드시 '### 핵심 요약' 섹션과 '### 상세 요약' 섹션 2개로 작성하세요.\n2. 핵심 요약: 가장 중요한 내용 3~5개를 불릿 포인트로 작성하세요.\n3. 상세 요약: 본문 사실에 충실하게 최대 7개 불릿으로 작성하세요(7개 미만 가능).\n4. 노이즈 제거: 주소, 저작권, 구독 취소 안내 등은 무시하세요.\n5. 반드시 한국어로만 작성하고 문장을 마침표로 끝내세요."
  else if tier == "cloud" then
    "1. 형식 고정: 반드시 '### 핵심 요약'과 '### 상세 요약' 머리말을 사용하세요.\n2. 핵심 요약: 최상단에 전체를 관통하는 핵심 결론 3~5개를 불릿으로 작성하세요.\n3. 상세 요약: 본문 사실에 근거해 주제별 핵심 사실을 최대 7개 불릿으로 정리하세요(7개 미만 가능).\n4. 데이터 밀도: 수치, 인물, 결정 사항을 포함하되 과장/추측은 금지하세요.\n5. 노이즈 제거: 주소, 저작권, 구독 취소 안내 등은 포함하지 마세요.\n6. 반드시 한국어로만 격식 있는 문체로 작성하세요."
  else
    "1. 형식 고정: 반드시 '### 핵심 요약'과 '### 상세 요약' 머리말을 사용하세요.\n2. 핵심 요약: 가장 중요한 내용 3~5개를 불릿으로 작성하세요.\n3. 상세 요약: 본문 사실에 충실하게 최대 7개 불릿으로 작성하세요(7개 미만 가능).\n4. 노이즈 제거: 주소, 저작권, 구독 취소 안내 등은 포함하지 마세요.\n5. 반드시 한국어로 작성하고 모든 문장은 마침표(.)로 끝맺으세요."

/-- Body of the synthesis (reduce) call. -/
def synthCallBody (tier : String) (profile_info synth_body : String) :
    String :=
  let custom_tailor :=
    if profile_info ≠ "" then
      "\n중요: 아래 사용자 프로필에 맞춰 사용자가 특히 관심있어 할 내용을 강조하여 요약하세요." ++
        profile_info
    else ""
  "[System Role: " ++ synthSystemRole tier ++ "]\n" ++
  "아래 초안들을 바탕으로 최종 리포트를 작성하세요.\n\n" ++
  "작성 지침:\n" ++ synthGuidelines tier ++ custom_tailor ++ "\n\n" ++
  "요약 초안 목록:\n" ++ synth_body

/-- Embedding of `long_summarize.summarize_email_long_aware`.  Callbacks
(`on_progress`) are recorded in the trace instead of being invoked; the
provider is total, so the `try` around the synthesis call never fires. -/
def summarize_email_long_aware (P : ProviderM) (body : String)
    (cfg : LongSummarizeConfig) (user_profile : Option (List String × String)) :
    SummarizeTrace :=
  let body_s := body
  let acfg := tier_adjusted_cfg P.tier cfg
  if pyLen body_s ≤ acfg.chunk_if_body_chars_over then
    let res := P.responses 0
    { result :=
        { summary := ensure_core_detail_sections res.summary
          tags := res.tags, backlinks := res.backlinks
          personal := res.personal }
      callBodies := [body_s], progress := [] }
  else
    let chunks := chunk_text body_s acfg.chunk_chars acfg.max_chunks
    if chunks = [] then
      let res := P.responses 0
      { result :=
          { summary := ensure_core_detail_sections res.summary
            tags := res.tags, backlinks := res.backlinks
            personal := res.personal }
        callBodies := [pyTake body_s acfg.chunk_chars], progress := [] }
    else
      let total_units := chunks.length + 1
      let profile_info := profileInfo user_profile
      let st := mapChunks P acfg.part_bullets chunks.length total_units
        chunks 1 ⟨[], [], [], [], [], [], false⟩
      let synth_body := pyJoin "\n\n---\n\n" st.detailed_parts
      let synth := P.responses chunks.length
      let raw_synth := ensure_core_detail_sections (pyStrip synth.summary)
      let final0 :=
        if is_structured raw_synth then raw_synth
        else pyJoin "\n" (((extract_bullets raw_synth).filter (· ≠ "")).map
          (fun b => "- " ++ b))
      let tags2 := st.tags ++ synth.tags
      let backlinks2 := st.backlinks ++ synth.backlinks
      let personal2 := st.personal || synth.personal
      let final1 :=
        if final0 = "" then
          pyJoin "\n" ((((dedupe_keep_order st.all_bullets).take
            acfg.max_bullets).filter (· ≠ "")).map (fun b => "- " ++ b))
        else final0
      let final2 := ensure_core_detail_sections final1
      let tags3 := (dedupe_keep_order tags2).take acfg.max_tags
      let backlinks3 := (dedupe_keep_order backlinks2).take acfg.max_backlinks
      let final3 := if final2 = "" then "(no summary)" else final2
      { result :=
          { summary := final3, tags := tags3, backlinks := backlinks3
            personal := personal2 }
        callBodies := st.bodies ++
          [synthCallBody P.tier profile_info synth_body]
        progress := st.progress ++ [1] }

/-! ### C7: calls and progress reporting -/

/-- Trace of the map loop: bodies are the `[Part i/N]` prompts in order and
the progress fractions are `i / total_units` for the 1-based indices. -/
theorem mapChunks_trace (P : ProviderM) (pb n tu : Nat) :
    ∀ (chunks : List String) (i : Nat) (st : MapState),
      (mapChunks P pb n tu chunks i st).bodies =
        st.bodies ++ ((List.range' i chunks.length).zip chunks).map
          (fun p => partBody p.1 n p.2) ∧
      (mapChunks P pb n tu chunks i st).progress =
        st.progress ++ (List.range' i chunks.length).map
          (fun j => (j : ℚ) / (tu : ℚ)) := by
  intro chunks
  induction chunks with
  | nil => intro i st; simp [mapChunks]
  | cons ch rest ih =>
    intro i st
    simp only [mapChunks]
    refine ⟨?_, ?_⟩
    · rw [(ih (i + 1) _).1]
      simp [List.range'_succ]
    · rw [(ih (i + 1) _).2]
      simp [List.range'_succ]

/-- A body of 4501 spaces: longer than the default 4500 threshold but
whitespace-only, so `chunk_text` produces no chunks. -/
def wsBody : String := ⟨List.replicate 4501 ' '⟩

/-- A `fast`-tier provider with a fixed reply. -/
def c7Provider : ProviderM := ⟨"fast", fun _ => ⟨"- w", [], [], false⟩⟩

theorem dropWhile_space_replicate (n : Nat) :
    List.dropWhile pyIsSpace (List.replicate n ' ') = [] := by
  induction n with
  | zero => rfl
  | succ k ih =>
    rw [List.replicate_succ, List.dropWhile_cons,
      show pyIsSpace ' ' = true from rfl]
    exact ih

theorem pyLen_wsBody : pyLen wsBody = 4501 := by
  show (List.replicate 4501 ' ').length = 4501
  rw [List.length_replicate]

theorem pyStrip_wsBody : pyStrip wsBody = "" := by
  have h2 : stripL (List.replicate 4501 ' ') = [] := by
    unfold stripL lstripL
    rw [dropWhile_space_replicate]
    rfl
  show (⟨stripL (List.replicate 4501 ' ')⟩ : String) = ""
  rw [h2]

theorem chunk_text_wsBody (cc : Nat) (mc : Option Nat) :
    chunk_text wsBody cc mc = [] := by
  simp only [chunk_text]
  rw [if_pos pyStrip_wsBody]

/-- C7 counterexample: a 4501-space body exceeds the tier-adjusted
threshold, yet the orchestrator makes exactly one `provider.summarize`
call — whose body is the truncated original text, not a map or reduce
prompt — and `on_progress` is never invoked (in particular not with `1.0`
after a reduce step, because the reduce step never happens). -/
theorem c7_counterexample_no_reduce_no_progress :
    pyLen wsBody >
      (tier_adjusted_cfg c7Provider.tier {}).chunk_if_body_chars_over ∧
    (summarize_email_long_aware c7Provider wsBody {} none).callBodies =
      [pyTake wsBody 2400] ∧
    (summarize_email_long_aware c7Provider wsBody {} none).progress = [] := by
  have hthr : (tier_adjusted_cfg c7Provider.tier
      {}).chunk_if_body_chars_over = 4500 := rfl
  have hnot : ¬(pyLen wsBody ≤
      (tier_adjusted_cfg c7Provider.tier {}).chunk_if_body_chars_over) := by
    rw [pyLen_wsBody, hthr]
    decide
  have hnil : chunk_text wsBody
      (tier_adjusted_cfg c7Provider.tier {}).chunk_chars
      (tier_adjusted_cfg c7Provider.tier {}).max_chunks = [] :=
    chunk_text_wsBody _ _
  refine ⟨?_, ?_⟩
  · rw [pyLen_wsBody, hthr]
    decide
  · simp only [summarize_email_long_aware]
    rw [if_neg hnot, if_pos hnil]
    exact ⟨rfl, rfl⟩

/-- Long-body, nonempty-chunks trace of the orchestrator: one map call per
chunk, then the synthesis call; progress `i/(N+1)` per chunk then `1`. -/
theorem summarize_long_trace_aux (P : ProviderM) (body : String)
    (profile : Option (List String × String))
    (hnot : ¬(pyLen body ≤ (tier_adjusted_cfg P.tier {}).chunk_if_body_chars_over))
    (hne : chunk_text body (tier_adjusted_cfg P.tier {}).chunk_chars
      (tier_adjusted_cfg P.tier {}).max_chunks ≠ []) :
    (summarize_email_long_aware P body {} profile).callBodies =
      ((List.range' 1 (chunk_text body
          (tier_adjusted_cfg P.tier {}).chunk_chars
          (tier_adjusted_cfg P.tier {}).max_chunks).length).zip
        (chunk_text body (tier_adjusted_cfg P.tier {}).chunk_chars
          (tier_adjusted_cfg P.tier {}).max_chunks)).map
        (fun p => partBody p.1 (chunk_text body
          (tier_adjusted_cfg P.tier {}).chunk_chars
          (tier_adjusted_cfg P.tier {}).max_chunks).length p.2) ++
      [synthCallBody P.tier (profileInfo profile)
        (pyJoin "\n\n---\n\n"
          (mapChunks P (tier_adjusted_cfg P.tier {}).part_bullets
            (chunk_text body (tier_adjusted_cfg P.tier {}).chunk_chars
              (tier_adjusted_cfg P.tier {}).max_chunks).length
            ((chunk_text body (tier_adjusted_cfg P.tier {}).chunk_chars
              (tier_adjusted_cfg P.tier {}).max_chunks).length + 1)
            (chunk_text body (tier_adjusted_cfg P.tier {}).chunk_chars
              (tier_adjusted_cfg P.tier {}).max_chunks) 1
            ⟨[], [], [], [], [], [], false⟩).detailed_parts)] ∧
    (summarize_email_long_aware P body {} profile).progress =
      (List.range' 1 (chunk_text body
          (tier_adjusted_cfg P.tier {}).chunk_chars
          (tier_adjusted_cfg P.tier {}).max_chunks).length).map
        (fun j => (j : ℚ) / (((chunk_text body
          (tier_adjusted_cfg P.tier {}).chunk_chars
          (tier_adjusted_cfg P.tier {}).max_chunks).length + 1 : Nat) : ℚ)) ++
      [1] := by
  simp only [summarize_email_long_aware]
  rw [if_neg hnot, if_neg hne]
  obtain ⟨hb, hp⟩ := mapChunks_trace P
    (tier_adjusted_cfg P.tier {}).part_bullets
    (chunk_text body (tier_adjusted_cfg P.tier {}).chunk_chars
      (tier_adjusted_cfg P.tier {}).max_chunks).length
    ((chunk_text body (tier_adjusted_cfg P.tier {}).chunk_chars
      (tier_adjusted_cfg P.tier {}).max_chunks).length + 1)
    (chunk_text body (tier_adjusted_cfg P.tier {}).chunk_chars
      (tier_adjusted_cfg P.tier {}).max_chunks) 1
    ⟨[], [], [], [], [], [], false⟩
  constructor
  · show (mapChunks _ _ _ _ _ _ _).bodies ++ _ = _
    rw [hb]
    simp
  · show (mapChunks _ _ _ _ _ _ _).progress ++ [(1 : ℚ)] = _
    rw [hp]
    simp

/-- C7 (amended): with the default configuration, one `provider.summarize`
call with the full body and no progress callbacks when the body length is
at most the tier-adjusted threshold; for longer bodies whose chunking
yields `N ≥ 1` chunks, one call per chunk (bodies `[Part i/N]\n<chunk>`)
followed by one synthesis call, with `on_progress` invoked at `i/(N+1)`
after the `i`-th chunk and at `1.0` after the reduce step; for longer
bodies whose chunking yields no chunks (whitespace-only text), a single
call on the truncated body with no progress callbacks at all. -/
theorem c7_amended_map_reduce_trace :
    ∀ (P : ProviderM) (body : String)
      (profile : Option (List String × String)),
      (pyLen body ≤ (tier_adjusted_cfg P.tier {}).chunk_if_body_chars_over →
        (summarize_email_long_aware P body {} profile).callBodies = [body] ∧
        (summarize_email_long_aware P body {} profile).progress = []) ∧
      (pyLen body > (tier_adjusted_cfg P.tier {}).chunk_if_body_chars_over →
        (chunk_text body (tier_adjusted_cfg P.tier {}).chunk_chars
            (tier_adjusted_cfg P.tier {}).max_chunks = [] →
          (summarize_email_long_aware P body {} profile).callBodies =
            [pyTake body (tier_adjusted_cfg P.tier {}).chunk_chars] ∧
          (summarize_email_long_aware P body {} profile).progress = []) ∧
        (∀ chunks, chunks = chunk_text body
            (tier_adjusted_cfg P.tier {}).chunk_chars
            (tier_adjusted_cfg P.tier {}).max_chunks → chunks ≠ [] →
          (∃ synthB,
            (summarize_email_long_aware P body {} profile).callBodies =
              ((List.range' 1 chunks.length).zip chunks).map
                (fun p => partBody p.1 chunks.length p.2) ++ [synthB]) ∧
          (summarize_email_long_aware P body {} profile).progress =
            (List.range' 1 chunks.length).map
              (fun j => (j : ℚ) / ((chunks.length + 1 : Nat) : ℚ)) ++ [1])) := by
  intro P body profile
  refine ⟨?_, ?_⟩
  · intro hshort
    simp only [summarize_email_long_aware]
    rw [if_pos hshort]
    exact ⟨rfl, rfl⟩
  · intro hlong
    have hnot : ¬(pyLen body ≤
        (tier_adjusted_cfg P.tier {}).chunk_if_body_chars_over) := by omega
    refine ⟨?_, ?_⟩
    · intro hnil
      simp only [summarize_email_long_aware]
      rw [if_neg hnot, if_pos hnil]
      exact ⟨rfl, rfl⟩
    · intro chunks hchunks hne
      subst hchunks
      exact ⟨⟨_, (summarize_long_trace_aux P body profile hnot hne).1⟩,
        (summarize_long_trace_aux P body profile hnot hne).2⟩

/-- Witness for the amended C7 theorem: the 4501-space body exceeds the
threshold, chunking is empty, and the theorem yields the single truncated
call with empty progress. -/
theorem c7_amended_witness :
    pyLen wsBody >
      (tier_adjusted_cfg c7Provider.tier {}).chunk_if_body_chars_over ∧
    chunk_text wsBody (tier_adjusted_cfg c7Provider.tier {}).chunk_chars
      (tier_adjusted_cfg c7Provider.tier {}).max_chunks = [] ∧
    ((summarize_email_long_aware c7Provider wsBody {} none).callBodies =
        [pyTake wsBody (tier_adjusted_cfg c7Provider.tier {}).chunk_chars] ∧
      (summarize_email_long_aware c7Provider wsBody {} none).progress = []) := by
  have hlong : pyLen wsBody >
      (tier_adjusted_cfg c7Provider.tier {}).chunk_if_body_chars_over := by
    rw [pyLen_wsBody]
    decide
  exact ⟨hlong, chunk_text_wsBody _ _,
    ((c7_amended_map_reduce_trace c7Provider wsBody none).2 hlong).1
      (chunk_text_wsBody _ _)⟩

/-! ### C8: shape of the final summary -/

/-- A provider reply that mentions both Korean section labels but carries a
third `### 기타` section and a `**` emphasis marker inside a bullet. -/
def c8Bad : String :=
  "### 핵심 요약\n- **a**\n### 상세 요약\n- b\n### 기타\n- c"

/-- A provider that always replies with `c8Bad`. -/
def c8Provider : ProviderM := ⟨"fast", fun _ => ⟨c8Bad, [], [], false⟩⟩

/-- C8 counterexample: when the provider reply already mentions both
labels, `_ensure_core_detail_sections` passes it through unchanged, so
the final summary of `summarize_email_long_aware` can have three `### `
section lines and a bullet line containing a raw `**` marker. -/
theorem c8_counterexample_passthrough :
    (summarize_email_long_aware c8Provider "hi" {} none).result.summary =
      c8Bad ∧
    ((pySplitlines c8Bad).filter (fun l => pyStartsWith l "### ")).length =
      3 ∧
    (pySplitlines c8Bad).any
      (fun l => pyStartsWith l "- " && pyContains l "**") = true := by
  decide

theorem dropWhile_append_right (p : Char → Bool) (l₁ l₂ : List Char)
    (h : List.dropWhile p l₁ ≠ []) :
    List.dropWhile p (l₁ ++ l₂) = List.dropWhile p l₁ ++ l₂ := by
  induction l₁ with
  | nil => exact absurd rfl h
  | cons c cs ih =>
    cases hpc : p c with
    | true =>
      have h' : List.dropWhile p cs ≠ [] := by
        rw [List.dropWhile_cons, hpc] at h
        exact h
      rw [List.cons_append, List.dropWhile_cons, List.dropWhile_cons, hpc]
      show List.dropWhile p (cs ++ l₂) = List.dropWhile p cs ++ l₂
      exact ih h'
    | false =>
      rw [List.cons_append, List.dropWhile_cons, List.dropWhile_cons, hpc]
      show c :: (cs ++ l₂) = (c :: cs) ++ l₂
      rw [List.cons_append]

theorem rstripL_append_keep (a b : List Char)
    (h : ∃ c ∈ b, pyIsSpace c = false) :
    rstripL (a ++ b) = a ++ rstripL b := by
  unfold rstripL
  rw [List.reverse_append]
  have hne : List.dropWhile pyIsSpace b.reverse ≠ [] := by
    intro habs
    obtain ⟨c, hc, hcs⟩ := h
    have hall := List.dropWhile_eq_nil_iff.mp habs
    have hc' := hall c (List.mem_reverse.mpr hc)
    rw [hcs] at hc'
    exact Bool.false_ne_true hc'
  rw [dropWhile_append_right _ _ _ hne, List.reverse_append,
    List.reverse_reverse]

theorem stripL_block (c : Char) (l b : List Char) (hc : pyIsSpace c = false)
    (hb : ∃ d ∈ b, pyIsSpace d = false) :
    stripL ((c :: l) ++ b) = (c :: l) ++ rstripL b := by
  unfold stripL lstripL
  rw [List.cons_append, List.dropWhile_cons, hc]
  show rstripL (c :: (l ++ b)) = (c :: l) ++ rstripL b
  rw [← List.cons_append]
  exact rstripL_append_keep _ _ hb

/-- Stripping the rebuilt two-section block only trims the tail of the
detail text, preserving the two-section shape. -/
theorem pyStrip_two_sections (ct dt : String)
    (hdt : ∃ c ∈ dt.data, pyIsSpace c = false) :
    pyStrip ("### 핵심 요약\n" ++ ct ++ "\n\n### 상세 요약\n" ++ dt) =
      "### 핵심 요약\n" ++ ct ++ "\n\n### 상세 요약\n" ++
        (⟨rstripL dt.data⟩ : String) := by
  have hA : ("### 핵심 요약\n" ++ ct ++ "\n\n### 상세 요약\n").data =
      '#' :: ("## 핵심 요약\n" ++ ct ++ "\n\n### 상세 요약\n").data := by
    simp only [String.data_append]
    rfl
  have hdata : ("### 핵심 요약\n" ++ ct ++ "\n\n### 상세 요약\n" ++ dt).data =
      ("### 핵심 요약\n" ++ ct ++ "\n\n### 상세 요약\n").data ++ dt.data :=
    String.data_append _ _
  apply String.ext
  show stripL
      (("### 핵심 요약\n" ++ ct ++ "\n\n### 상세 요약\n" ++ dt).data) = _
  rw [hdata, hA, stripL_block '#' _ _ (by decide) hdt]
  have hmk : (⟨rstripL dt.data⟩ : String).data = rstripL dt.data := rfl
  simp only [String.data_append, hmk]
  rfl

theorem pyJoin_bullet_has_dash (d : String) (ds : List String) :
    '-' ∈ (pyJoin "\n" ((d :: ds).map (fun x => "- " ++ x))).data := by
  cases ds with
  | nil =>
    show '-' ∈ ("- " ++ d).data
    rw [String.data_append]
    exact List.mem_append_left _ (by decide)
  | cons e es =>
    show '-' ∈ (("- " ++ d) ++ "\n" ++
      pyJoin "\n" (("- " ++ e) :: es.map (fun x => "- " ++ x))).data
    rw [String.data_append, String.data_append, String.data_append]
    exact List.mem_append_left _ (List.mem_append_left _
      (List.mem_append_left _ (by decide)))

/-- The rebuild branch of `_ensure_core_detail_sections` yields exactly the
two canonical sections for every nonempty cleaned bullet list. -/
theorem rebuild_shape (cleaned : List String) (hcl : ¬(cleaned = [])) :
    ∃ ct dt,
      pyStrip ("### 핵심 요약\n" ++
        pyJoin "\n" ((cleaned.take 3).map (fun x => "- " ++ x)) ++
        "\n\n### 상세 요약\n" ++
        pyJoin "\n" ((if (cleaned.drop 3).take 7 = [] then
            cleaned.take (min 7 cleaned.length)
          else (cleaned.drop 3).take 7).map (fun x => "- " ++ x))) =
      "### 핵심 요약\n" ++ ct ++ "\n\n### 상세 요약\n" ++ dt := by
  have hne : (if (cleaned.drop 3).take 7 = [] then
      cleaned.take (min 7 cleaned.length)
    else (cleaned.drop 3).take 7) ≠ [] := by
    split
    · cases cleaned with
      | nil => exact absurd rfl hcl
      | cons y ys =>
        intro habs
        rcases List.take_eq_nil_iff.mp habs with h0 | h0
        all_goals first
          | exact List.noConfusion h0
          | (rw [List.length_cons] at h0; omega)
    · next h => exact h
  obtain ⟨d, ds, hdd⟩ := List.exists_cons_of_ne_nil hne
  rw [hdd]
  exact ⟨_, _, pyStrip_two_sections _ _
    ⟨'-', pyJoin_bullet_has_dash d ds, by decide⟩⟩

/-- The rebuild arm of `_ensure_core_detail_sections` (placeholder
template when no bullets survive, the rebuilt block otherwise) always has
the canonical two-section shape. -/
theorem ensure_rebuild_shape (cl : List String) :
    (if cl = [] then
        "### 핵심 요약\n- (요약 없음)\n\n### 상세 요약\n- (요약 없음)"
      else
        pyStrip ("### 핵심 요약\n" ++
          pyJoin "\n" ((cl.take 3).map (fun x => "- " ++ x)) ++
          "\n\n### 상세 요약\n" ++
          pyJoin "\n" ((if (cl.drop 3).take 7 = [] then
              cl.take (min 7 cl.length)
            else (cl.drop 3).take 7).map (fun x => "- " ++ x)))) = "" ∨
    ∃ ct dt,
      (if cl = [] then
          "### 핵심 요약\n- (요약 없음)\n\n### 상세 요약\n- (요약 없음)"
        else
          pyStrip ("### 핵심 요약\n" ++
            pyJoin "\n" ((cl.take 3).map (fun x => "- " ++ x)) ++
            "\n\n### 상세 요약\n" ++
            pyJoin "\n" ((if (cl.drop 3).take 7 = [] then
                cl.take (min 7 cl.length)
              else (cl.drop 3).take 7).map (fun x => "- " ++ x)))) =
        "### 핵심 요약\n" ++ ct ++ "\n\n### 상세 요약\n" ++ dt := by
  by_cases h : cl = []
  · right
    rw [if_pos h]
    exact ⟨"- (요약 없음)", "- (요약 없음)", by decide⟩
  · right
    rw [if_neg h]
    exact rebuild_shape _ h

/-- The `(no summary)` fallback guard always leaves either the fallback
string or an `_ensure_core_detail_sections` output. -/
theorem noSummary_or_ensure (y : String) :
    (if ensure_core_detail_sections y = "" then "(no summary)"
      else ensure_core_detail_sections y) = "(no summary)" ∨
    ∃ x, (if ensure_core_detail_sections y = "" then "(no summary)"
      else ensure_core_detail_sections y) = ensure_core_detail_sections x := by
  by_cases h : ensure_core_detail_sections y = ""
  · left
    rw [if_pos h]
  · right
    exact ⟨y, if_neg h⟩

set_option maxHeartbeats 2000000 in
/-- C8 (amended): the final summary of `summarize_email_long_aware` is
either the `"(no summary)"` fallback or the output of
`_ensure_core_detail_sections` on some text; and that normalizer passes
its input through unchanged (after label normalization) whenever the
normalized text already mentions both `핵심 요약` and `상세 요약` — so extra
sections and `**` markers in such text are preserved — while otherwise it
returns the empty string (empty input) or rebuilds the summary as exactly
the two canonical sections `### 핵심 요약` and `### 상세 요약`. -/
theorem c8_amended_summary_shape :
    (∀ (P : ProviderM) (body : String) (cfg : LongSummarizeConfig)
        (profile : Option (List String × String)),
      (summarize_email_long_aware P body cfg profile).result.summary =
          "(no summary)" ∨
        ∃ x, (summarize_email_long_aware P body cfg profile).result.summary =
          ensure_core_detail_sections x) ∧
    (∀ x : String,
      ((pyContains (pyRemoveSpaces (pyLower
            (normalize_summary_section_labels x))) "핵심요약" &&
          pyContains (pyRemoveSpaces (pyLower
            (normalize_summary_section_labels x))) "상세요약") = true →
        ensure_core_detail_sections x = normalize_summary_section_labels x) ∧
      ((pyContains (pyRemoveSpaces (pyLower
            (normalize_summary_section_labels x))) "핵심요약" &&
          pyContains (pyRemoveSpaces (pyLower
            (normalize_summary_section_labels x))) "상세요약") = false →
        ensure_core_detail_sections x = "" ∨
        ∃ ct dt, ensure_core_detail_sections x =
          "### 핵심 요약\n" ++ ct ++ "\n\n### 상세 요약\n" ++ dt)) := by
  constructor
  · intro P body cfg profile
    simp only [summarize_email_long_aware]
    split
    · right
      exact ⟨_, rfl⟩
    · split
      · right
        exact ⟨_, rfl⟩
      · dsimp only []
        exact noSummary_or_ensure _
  · intro x
    constructor
    · intro hb
      by_cases hs : normalize_summary_section_labels x = ""
      · simp only [ensure_core_detail_sections]
        rw [if_pos hs]
      · simp only [ensure_core_detail_sections]
        rw [if_neg hs, if_pos hb]
    · intro hbf
      by_cases hs : normalize_summary_section_labels x = ""
      · left
        simp only [ensure_core_detail_sections]
        rw [if_pos hs]
        exact hs
      · have hb : ¬((pyContains (pyRemoveSpaces (pyLower
            (normalize_summary_section_labels x))) "핵심요약" &&
            pyContains (pyRemoveSpaces (pyLower
            (normalize_summary_section_labels x))) "상세요약") = true) := by
          rw [hbf]
          decide
        simp only [ensure_core_detail_sections]
        rw [if_neg hs, if_neg hb]
        exact ensure_rebuild_shape _

/-- Witness for the amended C8 theorem: `"hello world"` mentions neither
label, so the theorem yields the rebuilt two-section shape for it. -/
theorem c8_amended_witness :
    (pyContains (pyRemoveSpaces (pyLower
        (normalize_summary_section_labels "hello world"))) "핵심요약" &&
      pyContains (pyRemoveSpaces (pyLower
        (normalize_summary_section_labels "hello world"))) "상세요약") =
      false ∧
    (ensure_core_detail_sections "hello world" = "" ∨
      ∃ ct dt, ensure_core_detail_sections "hello world" =
        "### 핵심 요약\n" ++ ct ++ "\n\n### 상세 요약\n" ++ dt) :=
  ⟨by decide, (c8_amended_summary_shape.2 "hello world").2 (by decide)⟩

end WebmailSummary
